import Mathlib

/-
Verification development for the CanvasAutomateQuiz repository.

The Python sources are shallowly embedded as executable Lean definitions:

* ISO-8601 timestamp strings are modelled by integers (`Ts`); the embedding of
  `datetime.fromisoformat` is order-isomorphic to the real parse, which is all
  the comparisons `finished_at <= due_dt` / `finished_at > due_dt` depend on.
  A `None` timestamp is `Option.none`; calling the parse helper on it models
  the AttributeError raised by `None.replace(...)` and is an `Except.error`.
* Python dicts that the code only ever reads through `get`/`in` are modelled
  as lookup functions or insertion-ordered association lists (`dictSet`
  reproduces CPython's "update in place, append if new" semantics).
* Fallible code returns `Except`; a `SystemExit`/uncaught exception is the
  `error` branch.
-/

set_option maxHeartbeats 1000000

abbrev Ts := Int

/-- A quiz submission object as consumed by the pipeline
(`user_id`, `finished_at`, `score` are the fields the code reads). -/
structure Submission where
  user_id : Int
  finished_at : Option Ts
  score : Option Int
deriving DecidableEq

/-- The `user` object nested in an enrollment record. -/
structure RosterUser where
  id : Option Int
  name : Option String
  login_id : Option String
deriving DecidableEq

/-- An enrollment record; `user` is `none` when the record carries no usable
`user` object (absent key, or the empty dict, which every consumer treats
identically to an absent one: falsy under `if e.get("user")`, and
`{}.get("id")` is `None`). -/
structure Enrollment where
  user : Option RosterUser
deriving DecidableEq

/-- A row of the `students` list built by generate_attempt_report.py. -/
structure Student where
  user_id : Option Int
  name : Option String
  login_id : Option String
deriving DecidableEq

/-- `parse_ts`: `datetime.fromisoformat(ts.replace("Z", "+00:00"))`.
On `None` the attribute access `None.replace` raises (AttributeError),
modelled as `Except.error ()`; on a real timestamp it yields its instant. -/
def parse_ts : Option Ts → Except Unit Ts
  | none => .error ()
  | some t => .ok t

/-- `attempt_map = {s["user_id"]: s for s in quiz_subs}`, as a lookup:
for a repeated `user_id` the last submission wins. -/
def attemptMap (subs : List Submission) (uid : Int) : Option Submission :=
  subs.reverse.find? (fun s => s.user_id == uid)

/-- The `students` list of generate_attempt_report.py:
`u = e.get("user", {})`, then `u.get("id")`, `u.get("name")`, `u.get("login_id")`. -/
def mkStudents (enrollments : List Enrollment) : List Student :=
  enrollments.map (fun e =>
    match e.user with
    | none => ⟨none, none, none⟩
    | some u => ⟨u.id, u.name, u.login_id⟩)

/-- `attempt_map.get(s["user_id"])` (a `None` id matches no submission). -/
def subOf (amap : Int → Option Submission) (s : Student) : Option Submission :=
  s.user_id.bind amap

/-- The record appended to the on-time / late lists:
`{**s, "score": sub.get("score"), "finished_at": sub.get("finished_at")}`. -/
structure ReportRecord where
  student : Student
  score : Option Int
  finished_at : Option Ts
deriving DecidableEq

/-- The three report buckets of generate_attempt_report.py. -/
structure Buckets where
  on_time : List ReportRecord
  late : List ReportRecord
  not_attempted : List Student
deriving DecidableEq

/-- The classify loop of generate_attempt_report.py, one student at a time:
no submission appends to `not_attempted`; otherwise
`finished_at = parse_ts(sub["finished_at"])` (which raises when the field is
null), then `finished_at > due_dt` decides late versus on-time. -/
def classifyLoop (due : Ts) (amap : Int → Option Submission) :
    List Student → Except Unit Buckets
  | [] => .ok ⟨[], [], []⟩
  | s :: rest =>
    match subOf amap s with
    | none =>
      match classifyLoop due amap rest with
      | .error e => .error e
      | .ok b => .ok ⟨b.on_time, b.late, s :: b.not_attempted⟩
    | some sub =>
      match parse_ts sub.finished_at with
      | .error e => .error e
      | .ok ft =>
        match classifyLoop due amap rest with
        | .error e => .error e
        | .ok b =>
          if due < ft then .ok ⟨b.on_time, ⟨s, sub.score, sub.finished_at⟩ :: b.late, b.not_attempted⟩
          else .ok ⟨⟨s, sub.score, sub.finished_at⟩ :: b.on_time, b.late, b.not_attempted⟩

/-- The report pipeline: parse the fetched `due_at` (raising when it is null),
then classify every enrolled student. -/
def classifyReport (dueAt : Option Ts) (subs : List Submission)
    (enrollments : List Enrollment) : Except Unit Buckets :=
  match parse_ts dueAt with
  | .error e => .error e
  | .ok due => classifyLoop due (attemptMap subs) (mkStudents enrollments)

def GRADE_ON_TIME : String := "1.00"
def GRADE_LATE_OR_NOT : String := "0.00"

/-- First-occurrence deduplication; models the identifier set
`{... for e in enrollments if e.get("user")}` (iteration order of the set is
immaterial: each id is graded once, by a function of the id alone). -/
def dedupFirst (l : List Int) : List Int :=
  l.foldl (fun acc x => if acc.contains x then acc else acc ++ [x]) []

/-- The graded universe of build_user_grades:
`user_ids = {e.get("user", {}).get("id") for e in enrollments if e.get("user")}`,
with the `None` member skipped by `if uid is None: continue`. -/
def userIds (enrollments : List Enrollment) : List Int :=
  dedupFirst (enrollments.filterMap (fun e => e.user.bind (fun u => u.id)))

/-- The per-student grade of build_user_grades: no submission or a null
`finished_at` gives `GRADE_LATE_OR_NOT`; otherwise
`GRADE_ON_TIME if finished_at <= due_dt else GRADE_LATE_OR_NOT`. -/
def gradeOf (due : Ts) (amap : Int → Option Submission) (uid : Int) : String :=
  match amap uid with
  | none => GRADE_LATE_OR_NOT
  | some sub =>
    match sub.finished_at with
    | none => GRADE_LATE_OR_NOT
    | some ft => if ft ≤ due then GRADE_ON_TIME else GRADE_LATE_OR_NOT

/-- `build_user_grades`: parse the due timestamp (raising when null), then map
every enrolled user id to its grade string. -/
def buildUserGrades (dueAt : Option Ts) (subs : List Submission)
    (enrollments : List Enrollment) : Except Unit (List (Int × String)) :=
  match parse_ts dueAt with
  | .error e => .error e
  | .ok due => .ok ((userIds enrollments).map (fun uid => (uid, gradeOf due (attemptMap subs) uid)))

/-- Python-dict lookup on an association list (keys are unique in every dict
the code builds; `find?` takes the first binding). -/
def dictGet {κ α : Type} [BEq κ] (m : List (κ × α)) (k : κ) : Option α :=
  (m.find? (fun p => p.1 == k)).map (fun p => p.2)

/-- Python-dict assignment `m[k] = v`: update in place when the key exists
(keeping its position), append otherwise. -/
def dictSet {κ α : Type} [BEq κ] (m : List (κ × α)) (k : κ) (v : α) : List (κ × α) :=
  if m.any (fun p => p.1 == k) then m.map (fun p => if p.1 == k then (k, v) else p)
  else m ++ [(k, v)]

/-- The four observable outcomes of a student lookup in the classify loop. -/
inductive AttemptCase where
  | noSub | noFinish | onTime | late
deriving DecidableEq

/-- Which of the four cases a student falls in (a pure function of the
student's user id, the submission map and the due timestamp). -/
def caseOf (due : Ts) (amap : Int → Option Submission) (s : Student) : AttemptCase :=
  match subOf amap s with
  | none => .noSub
  | some sub =>
    match sub.finished_at with
    | none => .noFinish
    | some ft => if due < ft then .late else .onTime

/-- The record the classify loop builds for a student with a submission. -/
def recordOf (amap : Int → Option Submission) (s : Student) : ReportRecord :=
  ⟨s, (subOf amap s).bind (fun sub => sub.score), (subOf amap s).bind (fun sub => sub.finished_at)⟩

theorem classifyLoop_ok (due : Ts) (amap : Int → Option Submission) :
    ∀ students : List Student, (∀ s ∈ students, caseOf due amap s ≠ .noFinish) →
    classifyLoop due amap students =
      .ok ⟨(students.filter (fun s => caseOf due amap s == AttemptCase.onTime)).map (recordOf amap),
           (students.filter (fun s => caseOf due amap s == AttemptCase.late)).map (recordOf amap),
           students.filter (fun s => caseOf due amap s == AttemptCase.noSub)⟩
  | [], _ => rfl
  | s :: rest, h => by
    have hrest := classifyLoop_ok due amap rest (fun x hx => h x (List.mem_cons_of_mem _ hx))
    have hs := h s (List.mem_cons_self _ _)
    cases hsub : subOf amap s with
    | none =>
      have hcase : caseOf due amap s = .noSub := by simp [caseOf, hsub]
      simp [classifyLoop, hsub, hrest, List.filter_cons, hcase]
    | some sub =>
      cases hfin : sub.finished_at with
      | none => exact absurd (by simp [caseOf, hsub, hfin]) hs
      | some ft =>
        have hrec : recordOf amap s = ⟨s, sub.score, sub.finished_at⟩ := by
          simp [recordOf, hsub]
        by_cases hlt : due < ft
        · have hcase : caseOf due amap s = .late := by simp [caseOf, hsub, hfin, hlt]
          simp [classifyLoop, hsub, hfin, parse_ts, hrest, hlt, List.filter_cons, hcase, hrec]
        · have hcase : caseOf due amap s = .onTime := by simp [caseOf, hsub, hfin, hlt]
          simp [classifyLoop, hsub, hfin, parse_ts, hrest, hlt, List.filter_cons, hcase, hrec]

theorem classifyLoop_err (due : Ts) (amap : Int → Option Submission) :
    ∀ students : List Student, (∃ s ∈ students, caseOf due amap s = .noFinish) →
    classifyLoop due amap students = .error ()
  | s :: rest, h => by
    rcases h with ⟨x, hx, hcase⟩
    rcases List.mem_cons.mp hx with rfl | hx'
    · have hex : ∃ sub, subOf amap x = some sub ∧ sub.finished_at = none := by
        cases hsub : subOf amap x with
        | none => simp [caseOf, hsub] at hcase
        | some sub =>
          refine ⟨sub, rfl, ?_⟩
          cases hfin : sub.finished_at with
          | none => rfl
          | some ft =>
            by_cases hlt : due < ft <;> simp [caseOf, hsub, hfin, hlt] at hcase
      obtain ⟨sub, hsub, hfin⟩ := hex
      simp [classifyLoop, hsub, hfin, parse_ts]
    · have hrest := classifyLoop_err due amap rest ⟨x, hx', hcase⟩
      cases hsub : subOf amap s with
      | none => simp [classifyLoop, hsub, hrest]
      | some sub =>
        cases hfin : sub.finished_at with
        | none => simp [classifyLoop, hsub, hfin, parse_ts]
        | some ft => simp [classifyLoop, hsub, hfin, parse_ts, hrest]

theorem classifyLoop_ok_noFinish (due : Ts) (amap : Int → Option Submission)
    (students : List Student) (b : Buckets)
    (h : classifyLoop due amap students = .ok b) :
    ∀ s ∈ students, caseOf due amap s ≠ .noFinish := by
  intro s hs hcase
  rw [classifyLoop_err due amap students ⟨s, hs, hcase⟩] at h
  exact Except.noConfusion h

theorem filter3_perm {α : Type} (p q r : α → Bool) :
    ∀ l : List α,
    (∀ x ∈ l, (p x = true ∧ q x = false ∧ r x = false) ∨
              (p x = false ∧ q x = true ∧ r x = false) ∨
              (p x = false ∧ q x = false ∧ r x = true)) →
    List.Perm (l.filter p ++ l.filter q ++ l.filter r) l
  | [], _ => by simp
  | a :: l, h => by
    have ih := filter3_perm p q r l (fun x hx => h x (List.mem_cons_of_mem _ hx))
    have ih' : List.Perm (l.filter p ++ (l.filter q ++ l.filter r)) l := by
      rw [← List.append_assoc]; exact ih
    rcases h a (List.mem_cons_self _ _) with ⟨hp, hq, hr⟩ | ⟨hp, hq, hr⟩ | ⟨hp, hq, hr⟩
    · rw [List.filter_cons_of_pos hp, List.filter_cons_of_neg (by simp [hq]),
        List.filter_cons_of_neg (by simp [hr]), List.cons_append, List.cons_append]
      exact ih.cons a
    · rw [List.filter_cons_of_neg (by simp [hp]), List.filter_cons_of_pos hq,
        List.filter_cons_of_neg (by simp [hr]), List.append_assoc, List.cons_append]
      exact List.perm_middle.trans (ih'.cons a)
    · rw [List.filter_cons_of_neg (by simp [hp]), List.filter_cons_of_neg (by simp [hq]),
        List.filter_cons_of_pos hr]
      exact List.perm_middle.trans (ih.cons a)

theorem dedupFirst_foldl_mem :
    ∀ (l acc : List Int) (x : Int),
    x ∈ l.foldl (fun acc y => if acc.contains y then acc else acc ++ [y]) acc ↔
      x ∈ acc ∨ x ∈ l
  | [], acc, x => by simp
  | y :: l, acc, x => by
    by_cases hc : acc.contains y
    · have hy : y ∈ acc := by simpa using hc
      simp only [List.foldl_cons, hc, if_true, dedupFirst_foldl_mem l acc x, List.mem_cons]
      constructor
      · rintro (h | h)
        · exact Or.inl h
        · exact Or.inr (Or.inr h)
      · rintro (h | rfl | h)
        · exact Or.inl h
        · exact Or.inl hy
        · exact Or.inr h
    · simp only [List.foldl_cons, hc, if_false, Bool.false_eq_true,
        dedupFirst_foldl_mem l (acc ++ [y]) x, List.mem_append, List.mem_cons,
        List.mem_singleton]
      tauto

theorem mem_dedupFirst (l : List Int) (x : Int) : x ∈ dedupFirst l ↔ x ∈ l := by
  unfold dedupFirst
  rw [dedupFirst_foldl_mem]
  simp

theorem mem_userIds (enr : List Enrollment) (uid : Int) :
    uid ∈ userIds enr ↔ ∃ s ∈ mkStudents enr, s.user_id = some uid := by
  unfold userIds
  rw [mem_dedupFirst]
  simp only [List.mem_filterMap, mkStudents, List.mem_map]
  constructor
  · rintro ⟨e, he, hid⟩
    cases hu : e.user with
    | none => rw [hu] at hid; simp [Option.bind] at hid
    | some u =>
      rw [hu] at hid
      simp only [Option.some_bind] at hid
      exact ⟨⟨u.id, u.name, u.login_id⟩, ⟨e, he, by rw [hu]⟩, hid⟩
  · rintro ⟨s, ⟨e, he, hs⟩, hid⟩
    refine ⟨e, he, ?_⟩
    cases hu : e.user with
    | none => rw [hu] at hs; subst hs; simp at hid
    | some u =>
      rw [hu] at hs; subst hs
      simpa using hid

theorem dictGet_map_self {α : Type} (f : Int → α) :
    ∀ (l : List Int) (k : Int),
    dictGet (l.map (fun u => (u, f u))) k = if k ∈ l then some (f k) else none
  | [], k => by simp [dictGet]
  | u :: l, k => by
    have ih := dictGet_map_self f l k
    by_cases h : u = k
    · subst h
      have hfind : List.find? (fun p => p.1 == u) ((u, f u) :: l.map (fun v => (v, f v))) =
          some (u, f u) := List.find?_cons_of_pos _ (by simp)
      simp [dictGet, hfind]
    · have hfind : List.find? (fun p => p.1 == k) ((u, f u) :: l.map (fun v => (v, f v))) =
          List.find? (fun p => p.1 == k) (l.map (fun v => (v, f v))) :=
        List.find?_cons_of_neg _ (by simp [h])
      simp only [List.map_cons, dictGet, hfind]
      simp only [dictGet] at ih
      rw [ih]
      by_cases hm : k ∈ l <;> simp [hm, List.mem_cons, Ne.symm h]

theorem classifyReport_ok_elim (dueAt : Option Ts) (subs : List Submission)
    (enr : List Enrollment) (b : Buckets)
    (h : classifyReport dueAt subs enr = .ok b) :
    ∃ due : Ts, dueAt = some due ∧
      (∀ s ∈ mkStudents enr, caseOf due (attemptMap subs) s ≠ .noFinish) ∧
      b = ⟨((mkStudents enr).filter
              (fun s => caseOf due (attemptMap subs) s == AttemptCase.onTime)).map
              (recordOf (attemptMap subs)),
           ((mkStudents enr).filter
              (fun s => caseOf due (attemptMap subs) s == AttemptCase.late)).map
              (recordOf (attemptMap subs)),
           (mkStudents enr).filter
              (fun s => caseOf due (attemptMap subs) s == AttemptCase.noSub)⟩ := by
  cases dueAt with
  | none => simp [classifyReport, parse_ts] at h
  | some due =>
    refine ⟨due, rfl, ?_⟩
    have hloop : classifyLoop due (attemptMap subs) (mkStudents enr) = .ok b := by
      simpa [classifyReport, parse_ts] using h
    have hnf := classifyLoop_ok_noFinish _ _ _ _ hloop
    refine ⟨hnf, ?_⟩
    rw [classifyLoop_ok due (attemptMap subs) (mkStudents enr) hnf] at hloop
    exact (Except.ok.inj hloop).symm

/-- C2 (amended): whenever the report classification completes (equivalently,
no roster-matched submission lacks a completion timestamp), every enrolled
student lands in exactly one of the three buckets: the buckets are the
case-filters of the roster, their concatenation is a permutation of the
roster, they are pairwise disjoint, and a user id carried by no roster entry
appears in no bucket. (The unamended claim also quantified over inputs on
which the classifier raises instead of producing buckets.) -/
theorem classify_partition (dueAt : Option Ts) (subs : List Submission)
    (enr : List Enrollment) (b : Buckets)
    (h : classifyReport dueAt subs enr = .ok b) :
    ∃ due : Ts, dueAt = some due ∧
      b.on_time = ((mkStudents enr).filter
          (fun s => caseOf due (attemptMap subs) s == AttemptCase.onTime)).map
          (recordOf (attemptMap subs)) ∧
      b.late = ((mkStudents enr).filter
          (fun s => caseOf due (attemptMap subs) s == AttemptCase.late)).map
          (recordOf (attemptMap subs)) ∧
      b.not_attempted = (mkStudents enr).filter
          (fun s => caseOf due (attemptMap subs) s == AttemptCase.noSub) ∧
      List.Perm (b.on_time.map (fun r => r.student) ++ b.late.map (fun r => r.student)
          ++ b.not_attempted) (mkStudents enr) ∧
      (∀ s : Student,
        ¬(s ∈ b.on_time.map (fun r => r.student) ∧ s ∈ b.late.map (fun r => r.student)) ∧
        ¬(s ∈ b.on_time.map (fun r => r.student) ∧ s ∈ b.not_attempted) ∧
        ¬(s ∈ b.late.map (fun r => r.student) ∧ s ∈ b.not_attempted)) ∧
      (∀ uid : Int, (∀ s ∈ mkStudents enr, s.user_id ≠ some uid) →
        (∀ r ∈ b.on_time, r.student.user_id ≠ some uid) ∧
        (∀ r ∈ b.late, r.student.user_id ≠ some uid) ∧
        (∀ s ∈ b.not_attempted, s.user_id ≠ some uid)) := by
  obtain ⟨due, rfl, hnf, hb⟩ := classifyReport_ok_elim _ _ _ _ h
  refine ⟨due, rfl, ?_⟩
  have hot : b.on_time = ((mkStudents enr).filter
      (fun s => caseOf due (attemptMap subs) s == AttemptCase.onTime)).map
      (recordOf (attemptMap subs)) := by rw [hb]
  have hlt : b.late = ((mkStudents enr).filter
      (fun s => caseOf due (attemptMap subs) s == AttemptCase.late)).map
      (recordOf (attemptMap subs)) := by rw [hb]
  have hna : b.not_attempted = (mkStudents enr).filter
      (fun s => caseOf due (attemptMap subs) s == AttemptCase.noSub) := by rw [hb]
  have hcollapse : ∀ l : List Student,
      (l.map (recordOf (attemptMap subs))).map (fun r => r.student) = l := by
    intro l
    rw [List.map_map]
    exact List.map_id l
  have hexh : ∀ x ∈ mkStudents enr,
      ((caseOf due (attemptMap subs) x == AttemptCase.onTime) = true ∧
       (caseOf due (attemptMap subs) x == AttemptCase.late) = false ∧
       (caseOf due (attemptMap subs) x == AttemptCase.noSub) = false) ∨
      ((caseOf due (attemptMap subs) x == AttemptCase.onTime) = false ∧
       (caseOf due (attemptMap subs) x == AttemptCase.late) = true ∧
       (caseOf due (attemptMap subs) x == AttemptCase.noSub) = false) ∨
      ((caseOf due (attemptMap subs) x == AttemptCase.onTime) = false ∧
       (caseOf due (attemptMap subs) x == AttemptCase.late) = false ∧
       (caseOf due (attemptMap subs) x == AttemptCase.noSub) = true) := by
    intro x hx
    cases hc : caseOf due (attemptMap subs) x with
    | noFinish => exact absurd hc (hnf x hx)
    | onTime => left; simp
    | late => right; left; simp
    | noSub => right; right; simp
  refine ⟨hot, hlt, hna, ?_, ?_, ?_⟩
  · rw [hot, hlt, hna, hcollapse, hcollapse]
    exact filter3_perm _ _ _ (mkStudents enr) hexh
  · intro s
    rw [hot, hlt, hna, hcollapse, hcollapse]
    refine ⟨?_, ?_, ?_⟩ <;> rintro ⟨h1, h2⟩
    · have e1 := (List.mem_filter.mp h1).2
      have e2 := (List.mem_filter.mp h2).2
      simp only [beq_iff_eq] at e1 e2
      rw [e1] at e2
      exact AttemptCase.noConfusion e2
    · have e1 := (List.mem_filter.mp h1).2
      have e2 := (List.mem_filter.mp h2).2
      simp only [beq_iff_eq] at e1 e2
      rw [e1] at e2
      exact AttemptCase.noConfusion e2
    · have e1 := (List.mem_filter.mp h1).2
      have e2 := (List.mem_filter.mp h2).2
      simp only [beq_iff_eq] at e1 e2
      rw [e1] at e2
      exact AttemptCase.noConfusion e2
  · intro uid huid
    refine ⟨?_, ?_, ?_⟩
    · intro r hr
      rw [hot] at hr
      obtain ⟨s, hs, rfl⟩ := List.mem_map.mp hr
      exact huid s (List.mem_filter.mp hs).1
    · intro r hr
      rw [hlt] at hr
      obtain ⟨s, hs, rfl⟩ := List.mem_map.mp hr
      exact huid s (List.mem_filter.mp hs).1
    · intro s hs
      rw [hna] at hs
      exact huid s (List.mem_filter.mp hs).1

/-- C2 counterexample: a roster with one enrolled student whose submission has
a null completion timestamp. Classification raises (the run dies in
`parse_ts(sub["finished_at"])`) and therefore assigns this enrolled student
no bucket at all, refuting "for every roster, submission list, and due
timestamp, classification assigns every enrolled student exactly one of the
three buckets". -/
theorem classify_partition_cex :
    classifyReport (some 5) [⟨3, none, some 2⟩]
      [⟨some ⟨some 3, some "Ana", some "ana1"⟩⟩] = .error () := by rfl

/-- Witness for `classify_partition` at a concrete three-student roster
(one on-time, one late, one without a submission). -/
theorem classify_partition_witness :
    List.Perm
      (([⟨⟨some 1, some "A", some "a"⟩, some 9, some 5⟩] : List ReportRecord).map
          (fun r => r.student)
        ++ ([⟨⟨some 2, some "B", some "b"⟩, none, some 11⟩] : List ReportRecord).map
          (fun r => r.student)
        ++ [⟨some 3, some "C", some "c"⟩])
      (mkStudents [⟨some ⟨some 1, some "A", some "a"⟩⟩, ⟨some ⟨some 2, some "B", some "b"⟩⟩,
        ⟨some ⟨some 3, some "C", some "c"⟩⟩]) := by
  obtain ⟨due, hdue, hot, hlt, hna, hperm, hdisj, hexcl⟩ :=
    classify_partition (some 10) [⟨1, some 5, some 9⟩, ⟨2, some 11, none⟩]
      [⟨some ⟨some 1, some "A", some "a"⟩⟩, ⟨some ⟨some 2, some "B", some "b"⟩⟩,
       ⟨some ⟨some 3, some "C", some "c"⟩⟩]
      ⟨[⟨⟨some 1, some "A", some "a"⟩, some 9, some 5⟩],
       [⟨⟨some 2, some "B", some "b"⟩, none, some 11⟩],
       [⟨some 3, some "C", some "c"⟩]⟩ rfl
  exact hperm

/-- C9: a null `due_at` is fatal in both pipelines. `fetch_quiz_due_at`
returns `quiz.get("due_at")` unchanged, and both
generate_attempt_report.py and build_user_grades call `parse_ts` on it
before classifying or grading anything; on `None` that raises, so neither a
bucket nor a grade is ever produced. -/
theorem missing_due_fatal (subs : List Submission) (enr : List Enrollment) :
    classifyReport none subs enr = .error () ∧
    buildUserGrades none subs enr = .error () :=
  ⟨rfl, rfl⟩

/-- C1 (amended): the four-case rule holds for the gradebook grade
computation (no submission, and a submission without a completion timestamp,
grade `0.00`; completion at or before the due timestamp grades `1.00`, the
boundary inclusive; strictly after grades `0.00`). The report classifier
follows the rule in the three cases where a matched submission carries a
completion timestamp (not-attempted / on-time with an inclusive boundary /
late), but on a matched submission without a completion timestamp it raises
instead of producing the late-or-not-attempted bucket. -/
theorem attempt_four_cases (d : Ts) (subs : List Submission) (enr : List Enrollment) :
    (∀ g, buildUserGrades (some d) subs enr = .ok g →
      ∀ uid ∈ userIds enr,
        (attemptMap subs uid = none → dictGet g uid = some GRADE_LATE_OR_NOT) ∧
        (∀ sub, attemptMap subs uid = some sub →
          (sub.finished_at = none → dictGet g uid = some GRADE_LATE_OR_NOT) ∧
          (∀ ft, sub.finished_at = some ft →
            (ft ≤ d → dictGet g uid = some GRADE_ON_TIME) ∧
            (d < ft → dictGet g uid = some GRADE_LATE_OR_NOT)))) ∧
    (∀ b, classifyReport (some d) subs enr = .ok b →
      ∀ s ∈ mkStudents enr,
        (subOf (attemptMap subs) s = none → s ∈ b.not_attempted) ∧
        (∀ sub, subOf (attemptMap subs) s = some sub → ∀ ft, sub.finished_at = some ft →
          (ft ≤ d → recordOf (attemptMap subs) s ∈ b.on_time) ∧
          (d < ft → recordOf (attemptMap subs) s ∈ b.late))) ∧
    ((∃ s ∈ mkStudents enr, ∃ sub,
        subOf (attemptMap subs) s = some sub ∧ sub.finished_at = none) →
      classifyReport (some d) subs enr = .error ()) := by
  refine ⟨?_, ?_, ?_⟩
  · intro g hg uid hu
    have hgval : ((userIds enr).map
        (fun u => (u, gradeOf d (attemptMap subs) u))) = g := by
      simpa [buildUserGrades, parse_ts] using hg
    have hlook : dictGet g uid = some (gradeOf d (attemptMap subs) uid) := by
      rw [← hgval, dictGet_map_self, if_pos hu]
    refine ⟨?_, ?_⟩
    · intro hA
      rw [hlook]
      simp [gradeOf, hA]
    · intro sub hA
      refine ⟨?_, ?_⟩
      · intro hfin
        rw [hlook]
        simp [gradeOf, hA, hfin]
      · intro ft hfin
        refine ⟨?_, ?_⟩
        · intro hle
          rw [hlook]
          simp [gradeOf, hA, hfin, hle]
        · intro hgt
          rw [hlook]
          simp [gradeOf, hA, hfin, not_le.mpr hgt]
  · intro b hb s hs
    obtain ⟨due, hdue, hnf, hbv⟩ := classifyReport_ok_elim _ _ _ _ hb
    have hdd : due = d := (Option.some.inj hdue).symm
    rw [hdd] at hbv hnf
    have hna : b.not_attempted = (mkStudents enr).filter
        (fun s => caseOf d (attemptMap subs) s == AttemptCase.noSub) := by rw [hbv]
    have hot : b.on_time = ((mkStudents enr).filter
        (fun s => caseOf d (attemptMap subs) s == AttemptCase.onTime)).map
        (recordOf (attemptMap subs)) := by rw [hbv]
    have hlt : b.late = ((mkStudents enr).filter
        (fun s => caseOf d (attemptMap subs) s == AttemptCase.late)).map
        (recordOf (attemptMap subs)) := by rw [hbv]
    refine ⟨?_, ?_⟩
    · intro hsub
      rw [hna]
      exact List.mem_filter.mpr ⟨hs, by simp [caseOf, hsub]⟩
    · intro sub hsub ft hfin
      refine ⟨?_, ?_⟩
      · intro hle
        rw [hot]
        refine List.mem_map.mpr ⟨s, List.mem_filter.mpr ⟨hs, ?_⟩, rfl⟩
        simp [caseOf, hsub, hfin, not_lt.mpr hle]
      · intro hgt
        rw [hlt]
        refine List.mem_map.mpr ⟨s, List.mem_filter.mpr ⟨hs, ?_⟩, rfl⟩
        simp [caseOf, hsub, hfin, hgt]
  · rintro ⟨s, hs, sub, hsub, hfin⟩
    have hcase : caseOf d (attemptMap subs) s = .noFinish := by simp [caseOf, hsub, hfin]
    have herr := classifyLoop_err d (attemptMap subs) (mkStudents enr) ⟨s, hs, hcase⟩
    simp [classifyReport, parse_ts, herr]

/-- C1 counterexample: an enrolled student whose (sole) submission has a null
completion timestamp. The claim says the student gets the
late-or-not-attempted bucket; the report classifier instead raises
(`parse_ts(None)`) and produces no bucket, while the gradebook computation
does grade the student `0.00`. -/
theorem attempt_four_cases_cex :
    classifyReport (some 10) [⟨7, none, none⟩] [⟨some ⟨some 7, some "B", some "b"⟩⟩]
        = .error () ∧
    buildUserGrades (some 10) [⟨7, none, none⟩] [⟨some ⟨some 7, some "B", some "b"⟩⟩]
        = .ok [(7, "0.00")] :=
  ⟨rfl, rfl⟩

/-- Witness for `attempt_four_cases`: a submission finished exactly at the due
timestamp is graded `1.00` (the boundary is inclusive). -/
theorem attempt_four_cases_witness :
    dictGet [((4 : Int), GRADE_ON_TIME)] (4 : Int) = some GRADE_ON_TIME := by
  have h := ((attempt_four_cases 10 [⟨4, some 10, none⟩] [⟨some ⟨some 4, none, none⟩⟩]).1
      [(4, GRADE_ON_TIME)] rfl 4 (by decide)).2 ⟨4, some 10, none⟩ rfl
  exact (h.2 10 rfl).1 (by decide)

/-- C10 (amended): on runs where the report classifier completes, the two
implementations agree for every actual user id: the grade map assigns `1.00`
exactly to the ids in the on-time bucket and `0.00` exactly to the ids in the
late or not-attempted buckets. The unamended claim fails on its own two edge
cases: a matched submission without a completion timestamp makes the report
classifier raise while the gradebook computation grades `0.00`, and an
enrollment without a user identifier lands in the report's not-attempted
bucket but receives no grade. -/
theorem classifiers_agree (d : Ts) (subs : List Submission) (enr : List Enrollment)
    (b : Buckets) (g : List (Int × String))
    (hb : classifyReport (some d) subs enr = .ok b)
    (hg : buildUserGrades (some d) subs enr = .ok g) (uid : Int) :
    (dictGet g uid = some GRADE_ON_TIME ↔ ∃ r ∈ b.on_time, r.student.user_id = some uid) ∧
    (dictGet g uid = some GRADE_LATE_OR_NOT ↔
      ((∃ r ∈ b.late, r.student.user_id = some uid) ∨
       ∃ s ∈ b.not_attempted, s.user_id = some uid)) := by
  obtain ⟨due, hdue, hnf, hbv⟩ := classifyReport_ok_elim _ _ _ _ hb
  have hdd : due = d := (Option.some.inj hdue).symm
  rw [hdd] at hbv hnf
  have hgval : ((userIds enr).map (fun u => (u, gradeOf d (attemptMap subs) u))) = g := by
    simpa [buildUserGrades, parse_ts] using hg
  have hlook : dictGet g uid =
      if uid ∈ userIds enr then some (gradeOf d (attemptMap subs) uid) else none := by
    rw [← hgval]
    exact dictGet_map_self _ _ _
  have hot : b.on_time = ((mkStudents enr).filter
      (fun s => caseOf d (attemptMap subs) s == AttemptCase.onTime)).map
      (recordOf (attemptMap subs)) := by rw [hbv]
  have hlt : b.late = ((mkStudents enr).filter
      (fun s => caseOf d (attemptMap subs) s == AttemptCase.late)).map
      (recordOf (attemptMap subs)) := by rw [hbv]
  have hna : b.not_attempted = (mkStudents enr).filter
      (fun s => caseOf d (attemptMap subs) s == AttemptCase.noSub) := by rw [hbv]
  have hcase_of : ∀ s : Student, s.user_id = some uid →
      caseOf d (attemptMap subs) s = caseOf d (attemptMap subs) ⟨some uid, none, none⟩ := by
    intro s hsid
    simp [caseOf, subOf, hsid]
  have hOT : (∃ r ∈ b.on_time, r.student.user_id = some uid) ↔
      (uid ∈ userIds enr ∧
       caseOf d (attemptMap subs) ⟨some uid, none, none⟩ = AttemptCase.onTime) := by
    rw [hot]
    constructor
    · rintro ⟨r, hr, hrid⟩
      obtain ⟨s, hs, rfl⟩ := List.mem_map.mp hr
      have hsm := List.mem_filter.mp hs
      have hsid : s.user_id = some uid := hrid
      refine ⟨(mem_userIds enr uid).mpr ⟨s, hsm.1, hsid⟩, ?_⟩
      have hc := hsm.2
      simp only [beq_iff_eq] at hc
      rw [← hcase_of s hsid]
      exact hc
    · rintro ⟨hu, hc⟩
      obtain ⟨s, hs, hsid⟩ := (mem_userIds enr uid).mp hu
      refine ⟨recordOf (attemptMap subs) s, ?_, hsid⟩
      refine List.mem_map.mpr ⟨s, List.mem_filter.mpr ⟨hs, ?_⟩, rfl⟩
      simp only [beq_iff_eq]
      rw [hcase_of s hsid]
      exact hc
  have hLT : (∃ r ∈ b.late, r.student.user_id = some uid) ↔
      (uid ∈ userIds enr ∧
       caseOf d (attemptMap subs) ⟨some uid, none, none⟩ = AttemptCase.late) := by
    rw [hlt]
    constructor
    · rintro ⟨r, hr, hrid⟩
      obtain ⟨s, hs, rfl⟩ := List.mem_map.mp hr
      have hsm := List.mem_filter.mp hs
      have hsid : s.user_id = some uid := hrid
      refine ⟨(mem_userIds enr uid).mpr ⟨s, hsm.1, hsid⟩, ?_⟩
      have hc := hsm.2
      simp only [beq_iff_eq] at hc
      rw [← hcase_of s hsid]
      exact hc
    · rintro ⟨hu, hc⟩
      obtain ⟨s, hs, hsid⟩ := (mem_userIds enr uid).mp hu
      refine ⟨recordOf (attemptMap subs) s, ?_, hsid⟩
      refine List.mem_map.mpr ⟨s, List.mem_filter.mpr ⟨hs, ?_⟩, rfl⟩
      simp only [beq_iff_eq]
      rw [hcase_of s hsid]
      exact hc
  have hNA : (∃ s ∈ b.not_attempted, s.user_id = some uid) ↔
      (uid ∈ userIds enr ∧
       caseOf d (attemptMap subs) ⟨some uid, none, none⟩ = AttemptCase.noSub) := by
    rw [hna]
    constructor
    · rintro ⟨s, hs, hsid⟩
      have hsm := List.mem_filter.mp hs
      refine ⟨(mem_userIds enr uid).mpr ⟨s, hsm.1, hsid⟩, ?_⟩
      have hc := hsm.2
      simp only [beq_iff_eq] at hc
      rw [← hcase_of s hsid]
      exact hc
    · rintro ⟨hu, hc⟩
      obtain ⟨s, hs, hsid⟩ := (mem_userIds enr uid).mp hu
      refine ⟨s, List.mem_filter.mpr ⟨hs, ?_⟩, hsid⟩
      simp only [beq_iff_eq]
      rw [hcase_of s hsid]
      exact hc
  have hg1 : gradeOf d (attemptMap subs) uid = GRADE_ON_TIME ↔
      caseOf d (attemptMap subs) ⟨some uid, none, none⟩ = AttemptCase.onTime := by
    cases hA : attemptMap subs uid with
    | none =>
      have e1 : gradeOf d (attemptMap subs) uid = GRADE_LATE_OR_NOT := by simp [gradeOf, hA]
      have e2 : caseOf d (attemptMap subs) ⟨some uid, none, none⟩ = AttemptCase.noSub := by
        simp [caseOf, subOf, hA]
      rw [e1, e2]
      exact iff_of_false (by decide) (by decide)
    | some sub =>
      cases hfin : sub.finished_at with
      | none =>
        have e1 : gradeOf d (attemptMap subs) uid = GRADE_LATE_OR_NOT := by
          simp [gradeOf, hA, hfin]
        have e2 : caseOf d (attemptMap subs) ⟨some uid, none, none⟩ = AttemptCase.noFinish := by
          simp [caseOf, subOf, hA, hfin]
        rw [e1, e2]
        exact iff_of_false (by decide) (by decide)
      | some ft =>
        by_cases hle : ft ≤ d
        · have e1 : gradeOf d (attemptMap subs) uid = GRADE_ON_TIME := by
            simp [gradeOf, hA, hfin, hle]
          have e2 : caseOf d (attemptMap subs) ⟨some uid, none, none⟩ = AttemptCase.onTime := by
            simp [caseOf, subOf, hA, hfin, not_lt.mpr hle]
          rw [e1, e2]
          exact iff_of_true rfl rfl
        · have e1 : gradeOf d (attemptMap subs) uid = GRADE_LATE_OR_NOT := by
            simp [gradeOf, hA, hfin, hle]
          have e2 : caseOf d (attemptMap subs) ⟨some uid, none, none⟩ = AttemptCase.late := by
            simp [caseOf, subOf, hA, hfin, not_le.mp hle]
          rw [e1, e2]
          exact iff_of_false (by decide) (by decide)
  have hg0 : gradeOf d (attemptMap subs) uid = GRADE_LATE_OR_NOT ↔
      (caseOf d (attemptMap subs) ⟨some uid, none, none⟩ = AttemptCase.noSub ∨
       caseOf d (attemptMap subs) ⟨some uid, none, none⟩ = AttemptCase.noFinish ∨
       caseOf d (attemptMap subs) ⟨some uid, none, none⟩ = AttemptCase.late) := by
    cases hA : attemptMap subs uid with
    | none =>
      have e1 : gradeOf d (attemptMap subs) uid = GRADE_LATE_OR_NOT := by simp [gradeOf, hA]
      have e2 : caseOf d (attemptMap subs) ⟨some uid, none, none⟩ = AttemptCase.noSub := by
        simp [caseOf, subOf, hA]
      rw [e1, e2]
      simp
    | some sub =>
      cases hfin : sub.finished_at with
      | none =>
        have e1 : gradeOf d (attemptMap subs) uid = GRADE_LATE_OR_NOT := by
          simp [gradeOf, hA, hfin]
        have e2 : caseOf d (attemptMap subs) ⟨some uid, none, none⟩ = AttemptCase.noFinish := by
          simp [caseOf, subOf, hA, hfin]
        rw [e1, e2]
        simp
      | some ft =>
        by_cases hle : ft ≤ d
        · have e1 : gradeOf d (attemptMap subs) uid = GRADE_ON_TIME := by
            simp [gradeOf, hA, hfin, hle]
          have e2 : caseOf d (attemptMap subs) ⟨some uid, none, none⟩ = AttemptCase.onTime := by
            simp [caseOf, subOf, hA, hfin, not_lt.mpr hle]
          rw [e1, e2]
          exact iff_of_false (by decide) (by decide)
        · have e1 : gradeOf d (attemptMap subs) uid = GRADE_LATE_OR_NOT := by
            simp [gradeOf, hA, hfin, hle]
          have e2 : caseOf d (attemptMap subs) ⟨some uid, none, none⟩ = AttemptCase.late := by
            simp [caseOf, subOf, hA, hfin, not_le.mp hle]
          rw [e1, e2]
          simp
  have hnfu : uid ∈ userIds enr →
      caseOf d (attemptMap subs) ⟨some uid, none, none⟩ ≠ AttemptCase.noFinish := by
    intro hm
    obtain ⟨s, hs, hsid⟩ := (mem_userIds enr uid).mp hm
    rw [← hcase_of s hsid]
    exact hnf s hs
  constructor
  · rw [hOT, hlook]
    by_cases hm : uid ∈ userIds enr
    · simp only [hm, if_true, Option.some.injEq, true_and]
      exact hg1
    · simp [hm]
  · rw [hLT, hNA, hlook]
    by_cases hm : uid ∈ userIds enr
    · simp only [hm, if_true, Option.some.injEq, true_and]
      rw [hg0]
      have := hnfu hm
      constructor
      · rintro (hc | hc | hc)
        · exact Or.inr hc
        · exact absurd hc this
        · exact Or.inl hc
      · rintro (hc | hc)
        · exact Or.inr (Or.inr hc)
        · exact Or.inl hc
    · simp [hm]

/-- C10 counterexample: an enrollment whose user object has no id. The report
classifier completes and places the student in the not-attempted bucket, yet
the gradebook computation produces an empty grade map — no `0.00` is assigned
— refuting the claimed equivalence between the two implementations. -/
theorem classifiers_agree_cex :
    classifyReport (some 0) [] [⟨some ⟨none, some "A", some "a1"⟩⟩]
        = .ok ⟨[], [], [⟨none, some "A", some "a1"⟩]⟩ ∧
    buildUserGrades (some 0) [] [⟨some ⟨none, some "A", some "a1"⟩⟩] = .ok [] :=
  ⟨rfl, rfl⟩

/-- Witness for `classifiers_agree`: a student graded `1.00` is exactly the
occupant of the on-time bucket. -/
theorem classifiers_agree_witness :
    ∃ r ∈ [(⟨⟨some 5, some "E", some "e"⟩, none, some 4⟩ : ReportRecord)],
      r.student.user_id = some 5 := by
  have h := (classifiers_agree 10 [⟨5, some 4, none⟩] [⟨some ⟨some 5, some "E", some "e"⟩⟩]
      ⟨[⟨⟨some 5, some "E", some "e"⟩, none, some 4⟩], [], []⟩ [(5, GRADE_ON_TIME)]
      rfl rfl 5).1
  exact h.mp rfl

def ID_HEADER : String := "ID"

/-- A single apostrophe, to build the user-facing error strings verbatim. -/
def apos : String := ⟨[Char.ofNat 39]⟩

/-- Python ASCII whitespace as recognised by `str.strip()` (the gradebook
cells exercised here contain no exotic unicode whitespace). -/
def isPySpace (c : Char) : Bool :=
  c == ' ' || c == '\t' || c == '\n' || c == '\r' || c == '\x0b' || c == '\x0c'

/-- `str.strip()`. -/
def pyStrip (s : String) : String :=
  ⟨((s.data.dropWhile isPySpace).reverse.dropWhile isPySpace).reverse⟩

def decDigitsAux (acc : Option Nat) (c : Char) : Option Nat :=
  match acc with
  | none => none
  | some n => if c.isDigit then some (10 * n + (c.toNat - 48)) else none

def pyIntDigits (l : List Char) : Option Nat :=
  if l.isEmpty then none else l.foldl decDigitsAux (some 0)

/-- Python `int(s)` on an already-stripped string: an optional sign followed
by decimal digits, `none` for `ValueError` (the underscore-separator and
unicode-digit acceptances of CPython are not exercised by gradebook id cells
and are not modelled). -/
def pyInt (s : String) : Option Int :=
  match s.data with
  | '+' :: rest => (pyIntDigits rest).map (fun n => (n : Int))
  | '-' :: rest => (pyIntDigits rest).map (fun n => -(n : Int))
  | l => (pyIntDigits l).map (fun n => (n : Int))

/-- The id of a data row: `raw_id = row[id_col].strip()` then
`uid = int(raw_id) if raw_id else None`, inside `try ... except ValueError:
continue`. A blank cell gives `None` and a ValueError skips the row; both
leave the row unmodified, so both are `none` here. -/
def rowUid (cell : String) : Option Int :=
  let raw := pyStrip cell
  if raw == "" then none else pyInt raw

/-- The per-row update of `update_csv`: rows too short to hold both columns
are skipped, then the id cell is parsed, and an id with a computed grade
overwrites only the assignment-column cell. -/
def patchRow (idCol assignCol : Nat) (userGrades : List (Int × String))
    (row : List String) : List String :=
  if row.length ≤ max idCol assignCol then row
  else
    match rowUid ((row[idCol]?).getD "") with
    | none => row
    | some uid =>
      match dictGet userGrades uid with
      | none => row
      | some v => row.set assignCol v

/-- `update_csv`: fail on an empty CSV, locate the `ID` and assignment
columns in the header row by exact name (each missing one is fatal, the
assignment-column message carrying the formatting hint), keep rows 0-2
untouched and patch every row from index 3 on. -/
def update_csv (rows : List (List String)) (assignmentColumn : String)
    (userGrades : List (Int × String)) : Except String (List (List String)) :=
  if rows.isEmpty then .error "CSV is empty."
  else
    match (rows.headD []).findIdx? (fun c => c == ID_HEADER) with
    | none => .error ("CSV header must contain " ++ apos ++ ID_HEADER ++ apos ++ ".")
    | some idCol =>
      match (rows.headD []).findIdx? (fun c => c == assignmentColumn) with
      | none => .error ("Assignment column " ++ apos ++ assignmentColumn ++ apos
          ++ " not found in CSV header. Check spelling and parentheses (e.g. "
          ++ apos ++ "ERDiagram Quizz (7176714)" ++ apos ++ ").")
      | some assignCol =>
        .ok (rows.enum.map (fun p =>
          if p.1 < 3 then p.2 else patchRow idCol assignCol userGrades p.2))

theorem enum_map_getElem? {α β : Type} (f : Nat × α → β) (l : List α) (i : Nat) :
    (l.enum.map f)[i]? = (l[i]?).map (fun a => f (i, a)) := by
  rw [List.enum_eq_enumFrom, List.getElem?_map, List.getElem?_enumFrom]
  cases l[i]? <;> simp

theorem patchRow_length (idCol assignCol : Nat) (g : List (Int × String))
    (row : List String) : (patchRow idCol assignCol g row).length = row.length := by
  unfold patchRow
  by_cases hlen : row.length ≤ max idCol assignCol
  · rw [if_pos hlen]
  · rw [if_neg hlen]
    cases huid : rowUid ((row[idCol]?).getD "") with
    | none => rfl
    | some uid =>
      show (match dictGet g uid with
        | none => row
        | some v => row.set assignCol v).length = row.length
      cases hgr : dictGet g uid with
      | none => rfl
      | some v => simp

theorem patchRow_getElem?_ne (idCol assignCol : Nat) (g : List (Int × String))
    (row : List String) (j : Nat) (hj : j ≠ assignCol) :
    (patchRow idCol assignCol g row)[j]? = row[j]? := by
  unfold patchRow
  by_cases hlen : row.length ≤ max idCol assignCol
  · rw [if_pos hlen]
  · rw [if_neg hlen]
    cases huid : rowUid ((row[idCol]?).getD "") with
    | none => rfl
    | some uid =>
      show (match dictGet g uid with
        | none => row
        | some v => row.set assignCol v)[j]? = row[j]?
      cases hgr : dictGet g uid with
      | none => rfl
      | some v => exact List.getElem?_set_ne (Ne.symm hj)

theorem patchRow_change (idCol assignCol : Nat) (g : List (Int × String))
    (row : List String) (hne : patchRow idCol assignCol g row ≠ row) :
    max idCol assignCol < row.length ∧
    ∃ uid v, rowUid ((row[idCol]?).getD "") = some uid ∧ dictGet g uid = some v ∧
      patchRow idCol assignCol g row = row.set assignCol v := by
  unfold patchRow at hne ⊢
  by_cases hlen : row.length ≤ max idCol assignCol
  · rw [if_pos hlen] at hne
    exact absurd rfl hne
  · rw [if_neg hlen] at hne ⊢
    refine ⟨Nat.lt_of_not_le hlen, ?_⟩
    split at hne
    · exact absurd rfl hne
    · rename_i uid huid
      split at hne
      · exact absurd rfl hne
      · rename_i v hgr
        refine ⟨uid, v, huid, hgr, ?_⟩
        simp only [huid, hgr]

/-- C3: the patch is a frame: when `update_csv` succeeds, the output has the
same shape as the input, rows 0-2 are returned verbatim, every cell outside
the assignment column is unchanged in every row, and a row differs from its
input only when it sits at index 3 or later, is long enough to hold both the
id and assignment columns, its id cell parses to an integer, and that integer
has a computed grade — in which case exactly the assignment-column cell is
overwritten with that grade. -/
theorem update_csv_frame (rows : List (List String)) (col : String)
    (g : List (Int × String)) (out : List (List String))
    (h : update_csv rows col g = .ok out) :
    ∃ idCol assignCol,
      (rows.headD []).findIdx? (fun c => c == ID_HEADER) = some idCol ∧
      (rows.headD []).findIdx? (fun c => c == col) = some assignCol ∧
      out.length = rows.length ∧
      (∀ i, i < 3 → out[i]? = rows[i]?) ∧
      (∀ i row row', rows[i]? = some row → out[i]? = some row' →
        row'.length = row.length ∧
        (∀ j, j ≠ assignCol → row'[j]? = row[j]?) ∧
        (row' ≠ row →
          3 ≤ i ∧ max idCol assignCol < row.length ∧
          ∃ uid v, rowUid ((row[idCol]?).getD "") = some uid ∧
            dictGet g uid = some v ∧ row' = row.set assignCol v)) := by
  unfold update_csv at h
  cases hemp : rows.isEmpty with
  | true => rw [hemp] at h; simp at h
  | false =>
    rw [hemp] at h
    simp only [Bool.false_eq_true, if_false] at h
    cases hid : (rows.headD []).findIdx? (fun c => c == ID_HEADER) with
    | none => rw [hid] at h; simp at h
    | some idCol =>
      rw [hid] at h
      cases hac : (rows.headD []).findIdx? (fun c => c == col) with
      | none =>
        rw [hac] at h
        simp at h
      | some assignCol =>
        rw [hac] at h
        simp only [Except.ok.injEq] at h
        refine ⟨idCol, assignCol, rfl, rfl, ?_, ?_, ?_⟩
        · rw [← h]; simp
        · intro i hi
          rw [← h, enum_map_getElem?]
          cases hr : rows[i]? with
          | none => rfl
          | some row => simp [hi]
        · intro i row row' hr hr'
          rw [← h, enum_map_getElem?, hr] at hr'
          simp only [Option.map_some', Option.some.injEq] at hr'
          by_cases hi : i < 3
          · rw [if_pos hi] at hr'
            subst hr'
            exact ⟨rfl, fun j _ => rfl, fun hne => absurd rfl hne⟩
          · rw [if_neg hi] at hr'
            subst hr'
            refine ⟨patchRow_length _ _ _ _, fun j hj => patchRow_getElem?_ne _ _ _ _ j hj, ?_⟩
            intro hne
            obtain ⟨hlen, uid, v, huid, hgr, heq⟩ := patchRow_change _ _ _ _ hne
            exact ⟨Nat.le_of_not_lt hi, hlen, uid, v, huid, hgr, heq⟩

/-- Witness for `update_csv_frame`: a concrete successful run preserves the
platform metadata row below the header. -/
theorem update_csv_frame_witness :
    ([["ID", "Q (77)"], ["m1"], ["m2"], ["9", "1.00"], ["x", "keep"]] :
        List (List String))[1]?
      = ([["ID", "Q (77)"], ["m1"], ["m2"], ["9", "old"], ["x", "keep"]] :
        List (List String))[1]? := by
  obtain ⟨ic, ac, _, _, _, h3, _⟩ :=
    update_csv_frame [["ID", "Q (77)"], ["m1"], ["m2"], ["9", "old"], ["x", "keep"]] "Q (77)"
      [(9, "1.00")] [["ID", "Q (77)"], ["m1"], ["m2"], ["9", "1.00"], ["x", "keep"]] rfl
  exact h3 1 (by decide)

theorem patchRow_idem (idCol assignCol : Nat) (g : List (Int × String))
    (row : List String) (hne : idCol ≠ assignCol) :
    patchRow idCol assignCol g (patchRow idCol assignCol g row) =
      patchRow idCol assignCol g row := by
  by_cases hch : patchRow idCol assignCol g row = row
  · rw [hch, hch]
  · obtain ⟨hlen, uid, v, huid, hgr, heq⟩ := patchRow_change _ _ _ _ hch
    rw [heq]
    have hlen' : ¬(row.set assignCol v).length ≤ max idCol assignCol := by
      rw [List.length_set]
      exact Nat.not_le.mpr hlen
    have hid' : (((row.set assignCol v)[idCol]?).getD "") = ((row[idCol]?).getD "") := by
      rw [List.getElem?_set_ne (Ne.symm hne)]
    unfold patchRow
    rw [if_neg hlen', hid', huid]
    show (match dictGet g uid with
      | none => row.set assignCol v
      | some v2 => (row.set assignCol v).set assignCol v2) = row.set assignCol v
    rw [hgr]
    show (row.set assignCol v).set assignCol v = row.set assignCol v
    rw [List.set_set]

/-- C5 (amended): the patch is idempotent for every input row list and grade
map whenever the target column is not the id column `"ID"` itself:
re-applying `update_csv` to its own output with the same grade map returns
that output unchanged. (When the caller passes the id column as the target
column, the first application overwrites the id cells, so a grade map whose
values themselves parse as mapped ids can change the file again on the second
run — the unamended universally-quantified claim fails there.) -/
theorem update_csv_idempotent (rows : List (List String)) (col : String)
    (g : List (Int × String)) (out : List (List String)) (hcol : col ≠ ID_HEADER)
    (h : update_csv rows col g = .ok out) :
    update_csv out col g = .ok out := by
  unfold update_csv at h
  cases hemp : rows.isEmpty with
  | true => rw [hemp] at h; simp at h
  | false =>
    rw [hemp] at h
    simp only [Bool.false_eq_true, if_false] at h
    cases hid : (rows.headD []).findIdx? (fun c => c == ID_HEADER) with
    | none => rw [hid] at h; simp at h
    | some idCol =>
      rw [hid] at h
      cases hac : (rows.headD []).findIdx? (fun c => c == col) with
      | none => rw [hac] at h; simp at h
      | some assignCol =>
        rw [hac] at h
        simp only [Except.ok.injEq] at h
        obtain ⟨r0, rest, rfl⟩ : ∃ r0 rest, rows = r0 :: rest := by
          cases rows with
          | nil => simp at hemp
          | cons a l => exact ⟨a, l, rfl⟩
        rw [List.headD_cons] at hid hac
        have hne : idCol ≠ assignCol := by
          intro hcontra
          obtain ⟨hlt1, hp1, -⟩ := List.findIdx?_eq_some_iff_getElem.mp hid
          obtain ⟨hlt2, hp2, -⟩ := List.findIdx?_eq_some_iff_getElem.mp hac
          simp only [beq_iff_eq] at hp1 hp2
          have e1 : r0[idCol]? = some ID_HEADER := by
            rw [List.getElem?_eq_getElem hlt1, hp1]
          have e2 : r0[assignCol]? = some col := by
            rw [List.getElem?_eq_getElem hlt2, hp2]
          rw [← hcontra, e1] at e2
          exact hcol (Option.some.inj e2).symm
        have h0 : out[0]? = some r0 := by
          rw [← h, enum_map_getElem?]
          simp
        cases out with
        | nil => exact Option.noConfusion h0
        | cons o0 orest =>
          have ho0 : o0 = r0 := by simpa using h0
          subst ho0
          unfold update_csv
          simp only [List.isEmpty_cons, Bool.false_eq_true, if_false, List.headD_cons, hid, hac]
          congr 1
          apply List.ext_getElem?
          intro i
          rw [enum_map_getElem?]
          cases hoi : (o0 :: orest)[i]? with
          | none => rfl
          | some row' =>
            simp only [Option.map_some', Option.some.injEq]
            by_cases hi : i < 3
            · rw [if_pos hi]
            · rw [if_neg hi]
              have hrow : ∃ row, (o0 :: rest)[i]? = some row ∧
                  row' = patchRow idCol assignCol g row := by
                have hcg := congrArg (fun l => l[i]?) h
                simp only at hcg
                rw [enum_map_getElem?, hoi] at hcg
                cases hri : (o0 :: rest)[i]? with
                | none => rw [hri] at hcg; exact Option.noConfusion hcg
                | some row =>
                  rw [hri] at hcg
                  simp only [Option.map_some', Option.some.injEq] at hcg
                  rw [if_neg hi] at hcg
                  exact ⟨row, rfl, hcg.symm⟩
              obtain ⟨row, hri, hrw⟩ := hrow
              rw [hrw]
              exact patchRow_idem idCol assignCol g row hne

/-- C5 counterexample: the claim quantifies over every target column name and
grade map, including the id column itself. With target column `"ID"` and the
chained grade map `{5: "6", 6: "7"}`, the first application rewrites the id
cell `5` to `6`, and the second application — contrary to the claimed
idempotence — rewrites it again to `7`. -/
theorem update_csv_idem_cex :
    update_csv [["ID"], [], [], ["5"]] "ID" [(5, "6"), (6, "7")]
        = .ok [["ID"], [], [], ["6"]] ∧
    update_csv [["ID"], [], [], ["6"]] "ID" [(5, "6"), (6, "7")]
        = .ok [["ID"], [], [], ["7"]] ∧
    ([["ID"], [], [], ["6"]] : List (List String)) ≠ [["ID"], [], [], ["7"]] :=
  ⟨rfl, rfl, by decide⟩

/-- Witness for `update_csv_idempotent`: re-running the patch on its own
output leaves the file unchanged. -/
theorem update_csv_idempotent_witness :
    update_csv [["ID", "Q (12345)"], [], [], ["7", "1.00"]] "Q (12345)" [(7, "1.00")]
      = .ok [["ID", "Q (12345)"], [], [], ["7", "1.00"]] :=
  update_csv_idempotent [["ID", "Q (12345)"], [], [], ["7", "x"]] "Q (12345)" [(7, "1.00")]
    [["ID", "Q (12345)"], [], [], ["7", "1.00"]] (by decide) rfl

/-- One entry of the quiz metadata index (cse412_quiz_metadata.json), with the
fields `get_assignment_column` consults; `course_id` and `quiz_id` are kept as
the `str(...)` images the comparison uses, `gradebook_column` is optional. -/
structure QuizMetaEntry where
  course_id : String
  quiz_id : String
  gradebook_column : Option String
deriving DecidableEq

/-- The manual mapping file: course id -> (quiz id -> gradebook column name),
as insertion-ordered association lists. -/
abbrev Mapping := List (String × List (String × String))

/-- The metadata-file step of `get_assignment_column`: scan `quiz_list` for
the first entry matching both ids (the loop `break`s after it), and return
its `gradebook_column` only when that is truthy (present and non-empty). -/
def metaLookup (quizList : List QuizMetaEntry) (cid qid : String) : Option String :=
  match quizList.find? (fun q => q.course_id == cid && q.quiz_id == qid) with
  | none => none
  | some q =>
    match q.gradebook_column with
    | none => none
    | some col => if col == "" then none else some col

/-- The mapping-file step of `get_assignment_column`:
`by_course = mapping.get(cid)`, `if by_course:` (an empty dict is falsy),
`col = by_course.get(qid)`, `if col: return col`. -/
def mappingLookup (mapping : Mapping) (cid qid : String) : Option String :=
  match dictGet mapping cid with
  | none => none
  | some byCourse =>
    if byCourse.isEmpty then none
    else
      match dictGet byCourse qid with
      | none => none
      | some col => if col == "" then none else some col

/-- `if assignment_column_arg:` — `None` and the empty string are falsy. -/
def strTruthy : Option String → Bool
  | none => false
  | some s => !(s == "")

/-- `metaLookup` guarded by `meta_path.exists()` (`none` = file missing). -/
def metaStep (metadataFile : Option (List QuizMetaEntry)) (cid qid : String) : Option String :=
  match metadataFile with
  | none => none
  | some quizList => metaLookup quizList cid qid

/-- `mappingLookup` guarded by `path.exists()` (`none` = file missing). -/
def mappingStep (mappingFile : Option Mapping) (cid qid : String) : Option String :=
  match mappingFile with
  | none => none
  | some m => mappingLookup m cid qid

/-- The constant tail of the SystemExit message of `get_assignment_column`,
spelled as the concatenation of its segments so that the three consulted
sources it names are visible. The resulting string is byte-identical to the
Python f-string (METADATA_FILE and MAPPING_FILE interpolated). -/
def assignmentColumnErrorTail : String :=
  "Run build_quiz_metadata_index.py to refresh " ++ "cse412_quiz_metadata.json"
    ++ ", or add an entry to " ++ "quiz_gradebook_columns.json"
    ++ ", or pass " ++ "--assignment-column" ++ " "
    ++ apos ++ "Exact Name (id)" ++ apos ++ "."

/-- The exact SystemExit message of `get_assignment_column`. -/
def assignmentColumnError (qid : String) : String :=
  "Assignment column for quiz_id " ++ qid ++ " not found. " ++ assignmentColumnErrorTail

/-- `get_assignment_column`: the explicit `--assignment-column` argument wins
when truthy; otherwise the metadata index is consulted, then the manual
mapping file; if all three miss, the run exits with the user-facing message. -/
def get_assignment_column (cid qid : String) (assignmentColumnArg : Option String)
    (metadataFile : Option (List QuizMetaEntry)) (mappingFile : Option Mapping) :
    Except String String :=
  if strTruthy assignmentColumnArg then .ok (assignmentColumnArg.getD "")
  else
    match metaStep metadataFile cid qid with
    | some col => .ok col
    | none =>
      match mappingStep mappingFile cid qid with
      | some col => .ok col
      | none => .error (assignmentColumnError qid)

/-- C4: gradebook column resolution tries, in order: the caller-supplied
column name, the metadata index entry for the (course, quiz) pair when its
gradebook column is non-empty, then the manual mapping file entry — first hit
wins — and when all three miss it fails with the fatal user-facing message
that names the metadata file, the mapping file, and the
`--assignment-column` flag. -/
theorem resolve_column_order (cid qid : String) (arg : Option String)
    (md : Option (List QuizMetaEntry)) (mp : Option Mapping) :
    (∀ a, a ≠ "" → arg = some a →
      get_assignment_column cid qid arg md mp = .ok a) ∧
    (strTruthy arg = false → ∀ c, metaStep md cid qid = some c →
      get_assignment_column cid qid arg md mp = .ok c) ∧
    (strTruthy arg = false → metaStep md cid qid = none →
      ∀ c, mappingStep mp cid qid = some c →
      get_assignment_column cid qid arg md mp = .ok c) ∧
    (strTruthy arg = false → metaStep md cid qid = none →
      mappingStep mp cid qid = none →
      get_assignment_column cid qid arg md mp = .error (assignmentColumnError qid) ∧
      List.IsInfix "cse412_quiz_metadata.json".data (assignmentColumnError qid).data ∧
      List.IsInfix "quiz_gradebook_columns.json".data (assignmentColumnError qid).data ∧
      List.IsInfix "--assignment-column".data (assignmentColumnError qid).data) := by
  refine ⟨?_, ?_, ?_, ?_⟩
  · intro a ha harg
    subst harg
    have ht : strTruthy (some a) = true := by simp [strTruthy, ha]
    simp [get_assignment_column, ht]
  · intro hf c hc
    simp [get_assignment_column, hf, hc]
  · intro hf hmd c hc
    simp [get_assignment_column, hf, hmd, hc]
  · intro hf hmd hmp
    have hstr : ∀ pre name post : String, (pre ++ name ++ post) = assignmentColumnError qid →
        List.IsInfix name.data (assignmentColumnError qid).data := by
      intro pre name post hpre
      refine ⟨pre.data, post.data, ?_⟩
      rw [← String.data_append, ← String.data_append, hpre]
    refine ⟨by simp [get_assignment_column, hf, hmd, hmp], ?_, ?_, ?_⟩
    · refine hstr ("Assignment column for quiz_id " ++ qid ++ " not found. "
          ++ "Run build_quiz_metadata_index.py to refresh ") _
        (", or add an entry to " ++ "quiz_gradebook_columns.json"
          ++ ", or pass " ++ "--assignment-column" ++ " "
          ++ apos ++ "Exact Name (id)" ++ apos ++ ".") ?_
      simp only [assignmentColumnError, assignmentColumnErrorTail, String.append_assoc]
    · refine hstr ("Assignment column for quiz_id " ++ qid ++ " not found. "
          ++ "Run build_quiz_metadata_index.py to refresh "
          ++ "cse412_quiz_metadata.json" ++ ", or add an entry to ") _
        (", or pass " ++ "--assignment-column" ++ " "
          ++ apos ++ "Exact Name (id)" ++ apos ++ ".") ?_
      simp only [assignmentColumnError, assignmentColumnErrorTail, String.append_assoc]
    · refine hstr ("Assignment column for quiz_id " ++ qid ++ " not found. "
          ++ "Run build_quiz_metadata_index.py to refresh "
          ++ "cse412_quiz_metadata.json" ++ ", or add an entry to "
          ++ "quiz_gradebook_columns.json" ++ ", or pass ") _
        (" " ++ apos ++ "Exact Name (id)" ++ apos ++ ".") ?_
      simp only [assignmentColumnError, assignmentColumnErrorTail, String.append_assoc]

/-- Witness for `resolve_column_order`: an explicitly supplied column bypasses
the files, and with no sources at all the resolution fails with the
three-source message. -/
theorem resolve_column_order_witness :
    get_assignment_column "249800" "1938135" (some "ERDiagram Quizz (7176714)") none none
        = .ok "ERDiagram Quizz (7176714)" ∧
    get_assignment_column "249800" "1938135" none none none
        = .error (assignmentColumnError "1938135") := by
  constructor
  · exact (resolve_column_order "249800" "1938135" (some "ERDiagram Quizz (7176714)")
      none none).1 "ERDiagram Quizz (7176714)" (by decide) rfl
  · exact ((resolve_column_order "249800" "1938135" none none none).2.2.2 rfl rfl rfl).1

/-- An auxiliary user object from the `users` collection of a composite page;
`id` is the dedup key `u["id"]`, `body` stands for the rest of the object. -/
structure ApiUser where
  id : Int
  body : String
deriving DecidableEq

/-- The decoded top-level body of one page, as `fetch_all_pages` distinguishes
it: a dict containing `"quiz_submissions"` (with its `users` list, `[]` when
the key is absent), a plain list, or anything else (including a dict without
`"quiz_submissions"`). Primary entities are opaque payloads. -/
inductive PageBody where
  | composite (quiz_submissions : List String) (users : List ApiUser)
  | listShape (items : List String)
  | other
deriving DecidableEq

def entitiesOf : PageBody → List String
  | .composite subs _ => subs
  | .listShape xs => xs
  | .other => []

def usersOf : PageBody → List ApiUser
  | .composite _ us => us
  | _ => []

/-- The page loop of `fetch_all_pages`: composite pages extend `all_data` with
the `quiz_submissions` and fold the `users` into the dict
`all_users[u["id"]] = u`; plain lists extend `all_data`; any other shape
raises `ValueError("Unexpected response shape")`. At the end the users dict
is flattened with `list(all_users.values())`. -/
def fetchGo (acc : List String × List (Int × ApiUser)) :
    List PageBody → Except String (List String × List ApiUser)
  | [] => .ok (acc.1, acc.2.map (fun p => p.2))
  | p :: rest =>
    match p with
    | .composite subs users =>
      fetchGo (acc.1 ++ subs, users.foldl (fun m u => dictSet m u.id u) acc.2) rest
    | .listShape xs => fetchGo (acc.1 ++ xs, acc.2) rest
    | .other => .error "Unexpected response shape"

/-- `fetch_all_pages`, over the abstract sequence of page bodies the next-link
chain yields. -/
def fetch_all_pages (pages : List PageBody) : Except String (List String × List ApiUser) :=
  fetchGo ([], []) pages

theorem find?_mapReplace {κ α : Type} [BEq κ] [LawfulBEq κ] (k : κ) (v : α) (k' : κ)
    (hk : (k' == k) = false) :
    ∀ m : List (κ × α),
    ((m.map (fun p => if p.1 == k then (k, v) else p)).find? (fun p => p.1 == k'))
      = m.find? (fun p => p.1 == k')
  | [] => rfl
  | p :: m => by
    have hkk' : (k == k') = false := by
      rw [beq_eq_false_iff_ne] at hk ⊢
      exact fun h => hk h.symm
    by_cases hpk : (p.1 == k) = true
    · have hpk' : (p.1 == k') = false := by
        rw [beq_iff_eq] at hpk
        rw [beq_eq_false_iff_ne] at hk ⊢
        rw [hpk]
        exact fun h => hk h.symm
      simp only [List.map_cons, if_pos hpk, List.find?_cons, hkk', hpk']
      exact find?_mapReplace k v k' hk m
    · by_cases hpk' : (p.1 == k') = true
      · simp only [List.map_cons, if_neg hpk, List.find?_cons, hpk']
      · have hpk'f : (p.1 == k') = false := by simpa using hpk'
        simp only [List.map_cons, if_neg hpk, List.find?_cons, hpk'f]
        exact find?_mapReplace k v k' hk m

theorem find?_mapReplace_self {κ α : Type} [BEq κ] [LawfulBEq κ] (k : κ) (v : α) :
    ∀ m : List (κ × α), m.any (fun p => p.1 == k) = true →
    ((m.map (fun p => if p.1 == k then (k, v) else p)).find? (fun p => p.1 == k))
      = some (k, v)
  | p :: m, hany => by
    by_cases hpk : (p.1 == k) = true
    · have hkk : ((k, v).1 == k) = true := by simp
      simp only [List.map_cons, if_pos hpk, List.find?_cons, hkk]
    · have hany' : m.any (fun p => p.1 == k) = true := by
        simp only [List.any_cons, hpk, Bool.false_or] at hany
        exact hany
      have hpkf : (p.1 == k) = false := by simpa using hpk
      rw [List.map_cons, if_neg hpk]
      simp only [List.find?_cons, hpkf]
      exact find?_mapReplace_self k v m hany'

theorem dictGet_dictSet {κ α : Type} [BEq κ] [LawfulBEq κ]
    (m : List (κ × α)) (k : κ) (v : α) (k' : κ) :
    dictGet (dictSet m k v) k' = if (k' == k) = true then some v else dictGet m k' := by
  unfold dictSet
  by_cases hany : m.any (fun p => p.1 == k) = true
  · rw [if_pos hany]
    by_cases hk : (k' == k) = true
    · rw [if_pos hk]
      rw [beq_iff_eq] at hk
      subst hk
      unfold dictGet
      rw [find?_mapReplace_self k' v m hany]
      rfl
    · rw [if_neg hk]
      unfold dictGet
      rw [find?_mapReplace k v k' (by simpa using hk) m]
  · rw [if_neg hany]
    unfold dictGet
    rw [List.find?_append]
    by_cases hk : (k' == k) = true
    · rw [if_pos hk]
      have hnone : m.find? (fun p => p.1 == k') = none := by
        rw [List.find?_eq_none]
        intro x hx hpx
        apply hany
        rw [List.any_eq_true]
        refine ⟨x, hx, ?_⟩
        rw [beq_iff_eq] at hk hpx ⊢
        rw [hpx, hk]
      rw [hnone]
      have : ((k, v).1 == k') = true := by
        rw [beq_iff_eq] at hk ⊢
        exact hk.symm
      simp [List.find?, this]
    · rw [if_neg hk]
      have hne : ¬k' = k := by simpa [beq_iff_eq] using hk
      have hkv : ([(k, v)].find? (fun p => p.1 == k')) = none := by
        have : ((k, v).1 == k') = false := by
          simp only [beq_eq_false_iff_ne]
          exact fun h => hne h.symm
        simp [List.find?, this]
      rw [hkv, Option.or_none]

theorem dictGet_foldl_dictSet {κ α : Type} [BEq κ] [LawfulBEq κ] (key : α → κ) :
    ∀ (us : List α) (m : List (κ × α)) (k : κ),
    dictGet (us.foldl (fun m u => dictSet m (key u) u) m) k =
      match us.reverse.find? (fun u => key u == k) with
      | some u => some u
      | none => dictGet m k
  | [], m, k => by simp
  | u :: us, m, k => by
    simp only [List.foldl_cons, List.reverse_cons, List.find?_append,
      dictGet_foldl_dictSet key us (dictSet m (key u) u) k]
    cases hr : us.reverse.find? (fun u => key u == k) with
    | some q => rfl
    | none =>
      rw [Option.none_or, dictGet_dictSet]
      by_cases hku : (key u == k) = true
      · have h1 : List.find? (fun x => key x == k) [u] = some u := by
          simp [List.find?, hku]
        rw [h1]
        have h2 : (k == key u) = true := by
          rw [beq_iff_eq] at hku ⊢
          exact hku.symm
        simp [h2]
      · have hkuf : (key u == k) = false := by simpa using hku
        have h1 : List.find? (fun x => key x == k) [u] = none := by
          simp [List.find?, hkuf]
        rw [h1]
        have h2 : (k == key u) = false := by
          rw [beq_eq_false_iff_ne] at hkuf ⊢
          exact fun h => hkuf h.symm
        simp [h2]

theorem upsert_inv : ∀ (us : List ApiUser) (m : List (Int × ApiUser)),
    (∀ p ∈ m, p.1 = p.2.id) →
    ∀ p ∈ us.foldl (fun m u => dictSet m u.id u) m, p.1 = p.2.id
  | [], _, h => h
  | u :: us, m, h => by
    rw [List.foldl_cons]
    apply upsert_inv us
    intro p hp
    unfold dictSet at hp
    by_cases hmem : m.any (fun q => q.1 == u.id) = true
    · rw [if_pos hmem] at hp
      obtain ⟨q, hq, rfl⟩ := List.mem_map.mp hp
      by_cases hqk : (q.1 == u.id) = true
      · simp [hqk]
      · have hqkf : (q.1 == u.id) = false := by simpa using hqk
        simp only [hqkf, Bool.false_eq_true, if_false]
        exact h q hq
    · rw [if_neg hmem] at hp
      rcases List.mem_append.mp hp with hq | hq
      · exact h p hq
      · have : p = (u.id, u) := by simpa using hq
        rw [this]

theorem values_find? : ∀ (m : List (Int × ApiUser)) (k : Int),
    (∀ p ∈ m, p.1 = p.2.id) →
    (m.map (fun p => p.2)).find? (fun u => u.id == k) = dictGet m k
  | [], _, _ => rfl
  | p :: m, k, hinv => by
    have hp := hinv p (List.mem_cons_self _ _)
    have hrest := values_find? m k (fun q hq => hinv q (List.mem_cons_of_mem _ hq))
    by_cases hpk : (p.1 == k) = true
    · have hval : (p.2.id == k) = true := by rw [← hp]; exact hpk
      simp only [List.map_cons, List.find?_cons, hval, hpk, dictGet]
      rfl
    · have hpkf : (p.1 == k) = false := by simpa using hpk
      have hval : (p.2.id == k) = false := by rw [← hp]; exact hpkf
      simp only [List.map_cons, List.find?_cons, hval, hpkf, dictGet] at hrest ⊢
      exact hrest

theorem fetchGo_ok : ∀ (pages : List PageBody) (d : List String) (m : List (Int × ApiUser)),
    (∀ p ∈ pages, p ≠ .other) →
    fetchGo (d, m) pages = .ok (d ++ pages.flatMap entitiesOf,
      (((pages.flatMap usersOf).foldl (fun m u => dictSet m u.id u) m).map (fun p => p.2)))
  | [], d, m, _ => by simp [fetchGo]
  | page :: rest, d, m, h => by
    have hrest := fun x hx => h x (List.mem_cons_of_mem _ hx)
    cases page with
    | other => exact absurd rfl (h _ (List.mem_cons_self _ _))
    | composite subs users =>
      show fetchGo (d ++ subs, users.foldl (fun m u => dictSet m u.id u) m) rest = _
      rw [fetchGo_ok rest _ _ hrest]
      simp [entitiesOf, usersOf, List.append_assoc, List.foldl_append]
    | listShape xs =>
      show fetchGo (d ++ xs, m) rest = _
      rw [fetchGo_ok rest _ _ hrest]
      simp [entitiesOf, usersOf, List.append_assoc]

theorem fetchGo_err : ∀ (pages : List PageBody) (d : List String)
    (m : List (Int × ApiUser)),
    (∃ p ∈ pages, p = .other) →
    fetchGo (d, m) pages = .error "Unexpected response shape"
  | page :: rest, d, m, h => by
    cases page with
    | other => rfl
    | composite subs users =>
      have hr : ∃ p ∈ rest, p = PageBody.other := by
        rcases h with ⟨x, hx, hxo⟩
        rcases List.mem_cons.mp hx with rfl | hx'
        · exact absurd hxo (by simp)
        · exact ⟨x, hx', hxo⟩
      exact fetchGo_err rest _ _ hr
    | listShape xs =>
      have hr : ∃ p ∈ rest, p = PageBody.other := by
        rcases h with ⟨x, hx, hxo⟩
        rcases List.mem_cons.mp hx with rfl | hx'
        · exact absurd hxo (by simp)
        · exact ⟨x, hx', hxo⟩
      exact fetchGo_err rest _ _ hr

/-- C6: over any sequence of page bodies, the paginated fetcher appends plain
list pages and the `quiz_submissions` of composite pages to the primary
result in response order; the auxiliary `users` of composite pages are
accumulated into a map keyed by their `id` where the last-seen entry for a
repeated identifier wins; and a page whose top-level body is neither a list
nor a dict containing `quiz_submissions` raises the fatal
"Unexpected response shape". -/
theorem fetch_pages_spec (pages : List PageBody) :
    ((∀ p ∈ pages, p ≠ PageBody.other) →
      ∃ users, fetch_all_pages pages = .ok (pages.flatMap entitiesOf, users) ∧
        ∀ i : Int, users.find? (fun u => u.id == i) =
          (pages.flatMap usersOf).reverse.find? (fun u => u.id == i)) ∧
    ((∃ p ∈ pages, p = PageBody.other) →
      fetch_all_pages pages = .error "Unexpected response shape") := by
  constructor
  · intro h
    refine ⟨(((pages.flatMap usersOf).foldl (fun m u => dictSet m u.id u) []).map
        (fun p => p.2)), ?_, ?_⟩
    · unfold fetch_all_pages
      rw [fetchGo_ok pages [] [] h, List.nil_append]
    · intro i
      have hinv : ∀ p ∈ (pages.flatMap usersOf).foldl (fun m u => dictSet m u.id u)
          ([] : List (Int × ApiUser)), p.1 = p.2.id :=
        upsert_inv _ _ (by intro p hp; cases hp)
      rw [values_find? _ i hinv, dictGet_foldl_dictSet ApiUser.id (pages.flatMap usersOf) [] i]
      cases hr : (pages.flatMap usersOf).reverse.find? (fun u => u.id == i) with
      | some u => rfl
      | none => rfl
  · intro h
    exact fetchGo_err pages [] [] h

/-- Witness for `fetch_pages_spec`: one plain page and one composite page with
a repeated user id; the entities arrive in order and the later user object
wins the dedup. -/
theorem fetch_pages_spec_witness :
    ∃ users, fetch_all_pages [PageBody.listShape ["a"],
        PageBody.composite ["b"] [⟨1, "u1"⟩, ⟨1, "u2"⟩]] = .ok (["a", "b"], users) ∧
      users.find? (fun u => u.id == 1) = some ⟨1, "u2"⟩ := by
  obtain ⟨users, hok, hfind⟩ := (fetch_pages_spec [PageBody.listShape ["a"],
    PageBody.composite ["b"] [⟨1, "u1"⟩, ⟨1, "u2"⟩]]).1 (by decide)
  refine ⟨users, hok, ?_⟩
  rw [hfind 1]
  rfl

/-- `str.lower()` (the titles and headers involved are ASCII). -/
def pyLower (s : String) : String := ⟨s.data.map Char.toLower⟩

/-- A `\w` character for the ASCII strings involved. -/
def isWordChar (c : Char) : Bool := c.isAlpha || c.isDigit || c == '_'

/-- `normalize` of build_gradebook_mapping.py: lowercase and strip, remove
every whitespace/hyphen/underscore character (`re.sub(r"[\s\-_]+", "", s)`
deletes exactly those characters), then remove the remaining non-word
characters (`re.sub(r"[^\w]", "", s)`). -/
def pyNormalize (s : String) : String :=
  let t := pyStrip (pyLower s)
  let u := t.data.filter (fun c => !(isPySpace c || c == '-' || c == '_'))
  ⟨u.filter isWordChar⟩

/-- Python's substring test `a in b` on the normalized character lists. -/
def substrB : List Char → List Char → Bool
  | as, [] => as.isEmpty
  | as, b :: bs => as.isPrefixOf (b :: bs) || substrB as bs

/-- The disjunction the suggestion loop tests: normalized title and header
are substrings of one another, or (both non-empty) the first 10 normalized
characters of one are a substring of the other. The loop's `elif` guard is
absorbed: when the first disjunct holds the second is never consulted. -/
def matchCond (normTitle : String) (header : String) : Bool :=
  let nh := pyNormalize header
  (substrB normTitle.data nh.data || substrB nh.data normTitle.data)
    || (!(normTitle == "") && !(nh == "")
        && (substrB (normTitle.data.take 10) nh.data
            || substrB (nh.data.take 10) normTitle.data))

/-- One iteration of the best-candidate loop of `suggest_mapping`, mirroring
the `if`/`elif` with the strict `len(header) > best_len` update. -/
def considerHeader (normTitle : String) (best : Option String × Nat)
    (header : String) : Option String × Nat :=
  let nh := pyNormalize header
  if substrB normTitle.data nh.data || substrB nh.data normTitle.data then
    if header.data.length > best.2 then (some header, header.data.length) else best
  else if !(normTitle == "") && !(nh == "")
      && (substrB (normTitle.data.take 10) nh.data
          || substrB (nh.data.take 10) normTitle.data) then
    if header.data.length > best.2 then (some header, header.data.length) else best
  else best

/-- The per-quiz candidate selection of `suggest_mapping`: fold the header
list through `considerHeader` starting from `best = None, best_len = 0`. -/
def suggestBest (title : String) (headers : List String) : Option String :=
  (headers.foldl (considerHeader (pyNormalize title)) (none, 0)).1

/-- A quiz-metadata record as `suggest_mapping` reads it. -/
structure QuizMeta where
  quiz_id : String
  quiz_title : Option String
deriving DecidableEq

/-- `suggest_mapping`: for each quiz, strip its title (`or ""`), pick the best
header, and record it under the quiz id when truthy (`if best:`). -/
def suggest_mapping (headers : List String) (quizzes : List QuizMeta) :
    List (String × String) :=
  quizzes.foldl (fun sugg q =>
    match suggestBest (pyStrip (q.quiz_title.getD "")) headers with
    | none => sugg
    | some best => if best == "" then sugg else dictSet sugg q.quiz_id best) []

theorem considerHeader_eq (nt : String) (b : Option String × Nat) (h : String) :
    considerHeader nt b h =
      if matchCond nt h = true then
        (if h.data.length > b.2 then (some h, h.data.length) else b)
      else b := by
  unfold considerHeader matchCond
  by_cases hA : (substrB nt.data (pyNormalize h).data
      || substrB (pyNormalize h).data nt.data) = true
  · simp [hA]
  · simp only [Bool.not_eq_true] at hA
    by_cases hB : (!(nt == "") && !(pyNormalize h == "")
        && (substrB (nt.data.take 10) (pyNormalize h).data
            || substrB ((pyNormalize h).data.take 10) nt.data)) = true
    · simp [hA, hB]
    · simp only [Bool.not_eq_true] at hB
      simp [hA, hB]

/-- The reference selector: scan left to right, keeping a header only when it
matches and is strictly longer than the threshold, later strictly-longer
matches taking over. -/
def selectAbove (t : String) : Nat → List String → Option String
  | _, [] => none
  | n, h :: rest =>
    if matchCond t h = true ∧ n < h.data.length then
      match selectAbove t h.data.length rest with
      | some h2 => some h2
      | none => some h
    else selectAbove t n rest

theorem foldl_consider_eq_selectAbove (t : String) :
    ∀ (hs : List String) (b : Option String) (n : Nat),
    hs.foldl (considerHeader t) (b, n) =
      match selectAbove t n hs with
      | some h => (some h, h.data.length)
      | none => (b, n)
  | [], b, n => rfl
  | h :: rest, b, n => by
    rw [List.foldl_cons, considerHeader_eq]
    by_cases hc : matchCond t h = true ∧ n < h.data.length
    · rw [if_pos hc.1, if_pos hc.2]
      rw [foldl_consider_eq_selectAbove t rest (some h) h.data.length]
      cases hin : selectAbove t h.data.length rest with
      | some h2 =>
        have hsel : selectAbove t n (h :: rest) = some h2 := by
          simp only [selectAbove]
          rw [if_pos hc, hin]
        rw [hsel]
      | none =>
        have hsel : selectAbove t n (h :: rest) = some h := by
          simp only [selectAbove]
          rw [if_pos hc, hin]
        rw [hsel]
    · have hskip : (if matchCond t h = true then
          (if h.data.length > (b, n).2 then (some h, h.data.length) else (b, n))
          else (b, n)) = (b, n) := by
        by_cases hm : matchCond t h = true
        · rw [if_pos hm]
          have hng : ¬h.data.length > (b, n).2 := fun hgt => hc ⟨hm, hgt⟩
          rw [if_neg hng]
        · rw [if_neg hm]
      rw [hskip, foldl_consider_eq_selectAbove t rest b n]
      have hsel : selectAbove t n (h :: rest) = selectAbove t n rest := by
        simp only [selectAbove]
        rw [if_neg hc]
      rw [hsel]

theorem suggestBest_eq_selectAbove (title : String) (hs : List String) :
    suggestBest title hs = selectAbove (pyNormalize title) 0 hs := by
  unfold suggestBest
  rw [foldl_consider_eq_selectAbove]
  cases selectAbove (pyNormalize title) 0 hs with
  | some h => rfl
  | none => rfl

theorem selectAbove_none (t : String) :
    ∀ (hs : List String) (n : Nat),
    selectAbove t n hs = none → ∀ x ∈ hs, matchCond t x = true → x.data.length ≤ n
  | [], _, _ => by intro x hx; cases hx
  | h :: rest, n, hres => by
    intro x hx hmx
    by_cases hc : matchCond t h = true ∧ n < h.data.length
    · exfalso
      simp only [selectAbove] at hres
      rw [if_pos hc] at hres
      cases hin : selectAbove t h.data.length rest with
      | some h2 => rw [hin] at hres; exact Option.noConfusion hres
      | none => rw [hin] at hres; exact Option.noConfusion hres
    · simp only [selectAbove] at hres
      rw [if_neg hc] at hres
      rcases List.mem_cons.mp hx with rfl | hx'
      · exact Nat.le_of_not_lt (fun hlt => hc ⟨hmx, hlt⟩)
      · exact selectAbove_none t rest n hres x hx' hmx

theorem selectAbove_some (t : String) :
    ∀ (hs : List String) (n : Nat) (h : String),
    selectAbove t n hs = some h →
    matchCond t h = true ∧ n < h.data.length ∧
    ∃ l1 l2, hs = l1 ++ h :: l2 ∧
      (∀ x ∈ l1, matchCond t x = true → x.data.length < h.data.length ∨ x.data.length ≤ n) ∧
      (∀ x ∈ l2, matchCond t x = true → x.data.length ≤ h.data.length)
  | h0 :: rest, n, h, hres => by
    by_cases hc : matchCond t h0 = true ∧ n < h0.data.length
    · simp only [selectAbove] at hres
      rw [if_pos hc] at hres
      cases hin : selectAbove t h0.data.length rest with
      | none =>
        rw [hin] at hres
        have hh : h0 = h := by simpa using hres
        subst hh
        refine ⟨hc.1, hc.2, [], rest, rfl, ?_, ?_⟩
        · intro x hx
          cases hx
        · exact selectAbove_none t rest h0.data.length hin
      | some h2 =>
        rw [hin] at hres
        have hh : h2 = h := by simpa using hres
        subst hh
        obtain ⟨hm, hlt, l1, l2, hdec, hl1, hl2⟩ := selectAbove_some t rest h0.data.length h2 hin
        refine ⟨hm, Nat.lt_trans hc.2 hlt, h0 :: l1, l2, by rw [hdec, List.cons_append], ?_, hl2⟩
        intro x hx hmx
        rcases List.mem_cons.mp hx with rfl | hx'
        · exact Or.inl hlt
        · rcases hl1 x hx' hmx with hlt' | hle'
          · exact Or.inl hlt'
          · exact Or.inl (Nat.lt_of_le_of_lt hle' hlt)
    · simp only [selectAbove] at hres
      rw [if_neg hc] at hres
      obtain ⟨hm, hlt, l1, l2, hdec, hl1, hl2⟩ := selectAbove_some t rest n h hres
      refine ⟨hm, hlt, h0 :: l1, l2, by rw [hdec, List.cons_append], ?_, hl2⟩
      intro x hx hmx
      rcases List.mem_cons.mp hx with rfl | hx'
      · exact Or.inr (Nat.le_of_not_lt (fun hl => hc ⟨hmx, hl⟩))
      · exact hl1 x hx' hmx

/-- C7 (amended): the suggestion matcher normalizes title and candidates and
selects the longest candidate **of positive length** satisfying the match
disjunction (mutual normalized substring, or first-10-characters substring),
ties broken by first-seen order: a returned candidate satisfies the
condition, every earlier satisfying candidate is strictly shorter and every
satisfying candidate at all is no longer; when no suggestion is returned,
every satisfying candidate has length 0. "ER Diagram Quiz" matches
"ERDiagram Quizz (7176714)" while "Unrelated Topic" does not; a quiz whose
best candidate is `none` receives no entry from `suggest_mapping`. (The
unamended claim, which lets a length-0 candidate be selected, fails: the
loop's strict `len(header) > best_len` update starts from 0.) -/
theorem suggest_best_spec :
    (∀ title hs h, suggestBest title hs = some h →
      matchCond (pyNormalize title) h = true ∧ 0 < h.data.length ∧
      ∃ l1 l2, hs = l1 ++ h :: l2 ∧
        (∀ x ∈ l1, matchCond (pyNormalize title) x = true →
          x.data.length < h.data.length) ∧
        (∀ x ∈ l2, matchCond (pyNormalize title) x = true →
          x.data.length ≤ h.data.length)) ∧
    (∀ title hs, suggestBest title hs = none →
      ∀ x ∈ hs, matchCond (pyNormalize title) x = true → x.data.length = 0) ∧
    (∀ headers q, suggestBest (pyStrip (q.quiz_title.getD "")) headers = none →
      suggest_mapping headers [q] = []) ∧
    matchCond (pyNormalize "ER Diagram Quiz") "ERDiagram Quizz (7176714)" = true ∧
    suggestBest "ER Diagram Quiz" ["ERDiagram Quizz (7176714)"]
      = some "ERDiagram Quizz (7176714)" ∧
    matchCond (pyNormalize "Unrelated Topic") "ERDiagram Quizz (7176714)" = false ∧
    suggestBest "Unrelated Topic" ["ERDiagram Quizz (7176714)"] = none := by
  refine ⟨?_, ?_, ?_, ?_, ?_, ?_, ?_⟩
  · intro title hs h hres
    rw [suggestBest_eq_selectAbove] at hres
    obtain ⟨hm, hlt, l1, l2, hdec, hl1, hl2⟩ := selectAbove_some _ hs 0 h hres
    refine ⟨hm, hlt, l1, l2, hdec, ?_, hl2⟩
    intro x hx hmx
    rcases hl1 x hx hmx with hlt' | hle'
    · exact hlt'
    · have : x.data.length = 0 := Nat.le_zero.mp hle'
      rw [this]
      exact hlt
  · intro title hs hres
    rw [suggestBest_eq_selectAbove] at hres
    intro x hx hmx
    exact Nat.le_zero.mp (selectAbove_none _ hs 0 hres x hx hmx)
  · intro headers q hres
    unfold suggest_mapping
    rw [List.foldl_cons, hres]
    rfl
  · rfl
  · rfl
  · rfl
  · rfl

/-- C7 counterexample: the empty string is a candidate header satisfying the
match condition for any title (the empty normalized header is a substring of
every normalized title), and it is the longest — indeed only — satisfying
candidate in `[""]`; the claim therefore selects it, but the code returns no
suggestion because the loop only keeps candidates strictly longer than the
initial best length 0. -/
theorem suggest_best_cex :
    matchCond (pyNormalize "ER Diagram Quiz") "" = true ∧
    suggestBest "ER Diagram Quiz" [""] = none :=
  ⟨rfl, rfl⟩

/-- Witness for `suggest_best_spec`: the suggested header for
"ER Diagram Quiz" satisfies the match condition and has positive length. -/
theorem suggest_best_spec_witness :
    matchCond (pyNormalize "ER Diagram Quiz") "ERDiagram Quizz (7176714)" = true ∧
    0 < ("ERDiagram Quizz (7176714)" : String).data.length := by
  have h := suggest_best_spec.1 "ER Diagram Quiz" ["ERDiagram Quizz (7176714)"]
    "ERDiagram Quizz (7176714)" rfl
  exact ⟨h.1, h.2.1⟩

def hexDigitChar (n : Nat) : Char :=
  if n < 10 then Char.ofNat (48 + n) else Char.ofNat (87 + n)

def hexDigits4 (n : Nat) : List Char :=
  [hexDigitChar (n / 4096 % 16), hexDigitChar (n / 256 % 16),
   hexDigitChar (n / 16 % 16), hexDigitChar (n % 16)]

/-- `json.dump`'s escaping of one character (default `ensure_ascii=True`):
quote, backslash and the control shorthands, `\uXXXX` for other control and
non-ASCII characters (a surrogate pair above the BMP). -/
def jsonEscapeChar (c : Char) : List Char :=
  if c == '"' then ['\\', '"']
  else if c == '\\' then ['\\', '\\']
  else if c == '\n' then ['\\', 'n']
  else if c == '\t' then ['\\', 't']
  else if c == '\r' then ['\\', 'r']
  else if c == '\x08' then ['\\', 'b']
  else if c == '\x0c' then ['\\', 'f']
  else if c.toNat < 0x20 then '\\' :: 'u' :: hexDigits4 c.toNat
  else if c.toNat < 0x7f then [c]
  else if c.toNat < 0x10000 then '\\' :: 'u' :: hexDigits4 c.toNat
  else
    ('\\' :: 'u' :: hexDigits4 (0xD800 + (c.toNat - 0x10000) / 0x400))
      ++ ('\\' :: 'u' :: hexDigits4 (0xDC00 + (c.toNat - 0x10000) % 0x400))

def jsonDumpStr (s : String) : String :=
  ⟨'"' :: (s.data.map jsonEscapeChar).flatten ++ ['"']⟩

def joinStrs (sep : String) : List String → String
  | [] => ""
  | [x] => x
  | x :: y :: xs => x ++ sep ++ joinStrs sep (y :: xs)

/-- `json.dump(..., indent=2)` of one course's inner dict, as it appears
nested at depth 1. -/
def dumpCourseObj (bc : List (String × String)) : String :=
  if bc.isEmpty then "\x7b\x7d"
  else "\x7b\n" ++ joinStrs ",\n"
    (bc.map (fun p => "    " ++ jsonDumpStr p.1 ++ ": " ++ jsonDumpStr p.2)) ++ "\n  \x7d"

/-- `json.dump(mapping, f, indent=2)` for the two-level mapping shape. -/
def dumpMapping (m : Mapping) : String :=
  if m.isEmpty then "\x7b\x7d"
  else "\x7b\n" ++ joinStrs ",\n"
    (m.map (fun p => "  " ++ jsonDumpStr p.1 ++ ": " ++ dumpCourseObj p.2)) ++ "\n\x7d"

def isJsonWs (c : Char) : Bool := c == ' ' || c == '\t' || c == '\n' || c == '\r'

def skipWs (l : List Char) : List Char := l.dropWhile isJsonWs

def hexVal (c : Char) : Option Nat :=
  let n := c.toNat
  if 48 ≤ n ∧ n ≤ 57 then some (n - 48)
  else if 97 ≤ n ∧ n ≤ 102 then some (n - 87)
  else if 65 ≤ n ∧ n ≤ 70 then some (n - 55)
  else none

/-- The body of a JSON string after the opening quote: characters and escape
sequences until the closing quote (lone-surrogate `\uXXXX` escapes are not
modelled). Fuel-indexed so the definition is structural. -/
def jStrBody (fuel : Nat) (l : List Char) : Option (List Char × List Char) :=
  match fuel with
  | 0 => none
  | fuel + 1 =>
    match l with
    | [] => none
    | '"' :: rest => some ([], rest)
    | '\\' :: esc =>
      match esc with
      | 'u' :: h1 :: h2 :: h3 :: h4 :: rest =>
        match hexVal h1, hexVal h2, hexVal h3, hexVal h4 with
        | some a, some b, some c, some d =>
          let n := ((a * 16 + b) * 16 + c) * 16 + d
          if 0xD800 ≤ n ∧ n ≤ 0xDFFF then none
          else
            match jStrBody fuel rest with
            | some (cs, r) => some (Char.ofNat n :: cs, r)
            | none => none
        | _, _, _, _ => none
      | c :: rest =>
        match (match c with
          | '"' => some '"'
          | '\\' => some '\\'
          | '/' => some '/'
          | 'b' => some (Char.ofNat 8)
          | 'f' => some (Char.ofNat 12)
          | 'n' => some (Char.ofNat 10)
          | 'r' => some (Char.ofNat 13)
          | 't' => some (Char.ofNat 9)
          | _ => none) with
        | some e =>
          match jStrBody fuel rest with
          | some (cs, r) => some (e :: cs, r)
          | none => none
        | none => none
      | [] => none
    | c :: rest =>
      if c.toNat < 0x20 then none
      else
        match jStrBody fuel rest with
        | some (cs, r) => some (c :: cs, r)
        | none => none

def parseJString (fuel : Nat) (l : List Char) : Option (String × List Char) :=
  match l with
  | '"' :: rest =>
    match jStrBody fuel rest with
    | some (cs, r) => some (⟨cs⟩, r)
    | none => none
  | _ => none

/-- The `"key": "value"` entries of an inner (course) object, duplicate keys
resolved last-wins as `json.load` does. -/
def parseInnerEntries (fuel : Nat) (l : List Char) (acc : List (String × String)) :
    Option (List (String × String) × List Char) :=
  match fuel with
  | 0 => none
  | fuel + 1 =>
    match parseJString fuel l with
    | none => none
    | some (key, r1) =>
      match skipWs r1 with
      | ':' :: r2 =>
        match parseJString fuel (skipWs r2) with
        | none => none
        | some (value, r3) =>
          match skipWs r3 with
          | ',' :: r4 => parseInnerEntries fuel (skipWs r4) (dictSet acc key value)
          | '\x7d' :: r4 => some (dictSet acc key value, r4)
          | _ => none
      | _ => none

def parseInnerObj (fuel : Nat) (l : List Char) : Option (List (String × String) × List Char) :=
  match l with
  | '\x7b' :: rest =>
    match skipWs rest with
    | '\x7d' :: r => some ([], r)
    | r => parseInnerEntries fuel r []
  | _ => none

def parseOuterEntries (fuel : Nat) (l : List Char) (acc : Mapping) :
    Option (Mapping × List Char) :=
  match fuel with
  | 0 => none
  | fuel + 1 =>
    match parseJString fuel l with
    | none => none
    | some (key, r1) =>
      match skipWs r1 with
      | ':' :: r2 =>
        match parseInnerObj fuel (skipWs r2) with
        | none => none
        | some (value, r3) =>
          match skipWs r3 with
          | ',' :: r4 => parseOuterEntries fuel (skipWs r4) (dictSet acc key value)
          | '\x7d' :: r4 => some (dictSet acc key value, r4)
          | _ => none
      | _ => none

def parseOuterObj (fuel : Nat) (l : List Char) : Option (Mapping × List Char) :=
  match skipWs l with
  | '\x7b' :: rest =>
    match skipWs rest with
    | '\x7d' :: r => some ([], r)
    | r => parseOuterEntries fuel r []
  | _ => none

/-- `json.load` restricted to the documented two-level string-map shape of
the mapping file (any other JSON value, or trailing garbage, is `none`; the
fuel `length + 1` is ample since every entry consumes input). -/
def jsonLoadMapping (s : String) : Option Mapping :=
  match parseOuterObj (s.data.length + 1) s.data with
  | some (m, rest) => if (skipWs rest).isEmpty then some m else none
  | none => none

/-- The merge of the `--write` block:
`by_course = existing.get(args.course_id, {})`, each suggestion assigned into
it, then `existing[args.course_id] = by_course`. -/
def mergeSuggestions (existing : Mapping) (courseId : String)
    (sugg : List (String × String)) : Mapping :=
  dictSet existing courseId
    (sugg.foldl (fun bc p => dictSet bc p.1 p.2) ((dictGet existing courseId).getD []))

/-- What the `--write` block writes. -/
structure WriteResult where
  backupContent : Option String
  merged : Mapping
  newContent : String
deriving DecidableEq

/-- The `if args.write and suggestions:` block of build_gradebook_mapping.py:
skipped entirely (`ok none`) when there are no suggestions; otherwise, when
the mapping file exists its parsed content is re-serialized with
`json.dump(existing, f, indent=2)` into the backup file (a `json.load`
failure raises), the suggestions are merged per course, and the merged
mapping is serialized into the mapping file. -/
def writeMergeBlock (fileContent : Option String) (courseId : String)
    (sugg : List (String × String)) : Except Unit (Option WriteResult) :=
  if sugg.isEmpty then .ok none
  else
    match fileContent with
    | none =>
      .ok (some ⟨none, mergeSuggestions [] courseId sugg,
        dumpMapping (mergeSuggestions [] courseId sugg)⟩)
    | some content =>
      match jsonLoadMapping content with
      | none => .error ()
      | some existing =>
        .ok (some ⟨some (dumpMapping existing), mergeSuggestions existing courseId sugg,
          dumpMapping (mergeSuggestions existing courseId sugg)⟩)

theorem dictGet_foldl_dictSet_pairs {κ α : Type} [BEq κ] [LawfulBEq κ] :
    ∀ (pairs : List (κ × α)) (m : List (κ × α)) (k : κ),
    dictGet (pairs.foldl (fun m p => dictSet m p.1 p.2) m) k =
      match pairs.reverse.find? (fun p => p.1 == k) with
      | some p => some p.2
      | none => dictGet m k
  | [], m, k => by simp
  | p :: ps, m, k => by
    simp only [List.foldl_cons, List.reverse_cons, List.find?_append,
      dictGet_foldl_dictSet_pairs ps (dictSet m p.1 p.2) k]
    cases hr : ps.reverse.find? (fun q => q.1 == k) with
    | some q => rfl
    | none =>
      rw [Option.none_or, dictGet_dictSet]
      by_cases hk : (p.1 == k) = true
      · have h1 : List.find? (fun q => q.1 == k) [p] = some p := by
          simp [List.find?, hk]
        rw [h1]
        have h2 : (k == p.1) = true := by
          rw [beq_iff_eq] at hk ⊢
          exact hk.symm
        simp [h2]
      · have hkf : (p.1 == k) = false := by simpa using hk
        have h1 : List.find? (fun q => q.1 == k) [p] = none := by
          simp [List.find?, hkf]
        rw [h1]
        have h2 : (k == p.1) = false := by
          rw [beq_eq_false_iff_ne] at hkf ⊢
          exact fun h => hkf h.symm
        simp [h2]

/-- C8 (amended): when `--write` is given, at least one suggestion exists,
and the mapping file exists and parses, the block first writes a backup whose
content is the indent-2 JSON re-serialization of the parsed pre-merge mapping
(equal to the pre-merge file content exactly when that content is already in
this canonical indent-2 form, but not byte-identical in general), and the
merge is per-course: under the target course the suggested entries are added
or overwritten (last suggestion for a quiz id wins) while every other quiz of
that course and every other course is preserved unchanged. -/
theorem backup_merge_spec (content : String) (existing : Mapping) (cid : String)
    (sugg : List (String × String)) (hs : sugg ≠ [])
    (hload : jsonLoadMapping content = some existing) :
    ∃ r, writeMergeBlock (some content) cid sugg = .ok (some r) ∧
      r.backupContent = some (dumpMapping existing) ∧
      r.merged = mergeSuggestions existing cid sugg ∧
      r.newContent = dumpMapping (mergeSuggestions existing cid sugg) ∧
      (∀ c, c ≠ cid → dictGet r.merged c = dictGet existing c) ∧
      ∃ bc, dictGet r.merged cid = some bc ∧
        ∀ q, dictGet bc q =
          match sugg.reverse.find? (fun p => p.1 == q) with
          | some p => some p.2
          | none => dictGet ((dictGet existing cid).getD []) q := by
  have hie : sugg.isEmpty = false := by
    cases sugg with
    | nil => exact absurd rfl hs
    | cons a l => rfl
  refine ⟨⟨some (dumpMapping existing), mergeSuggestions existing cid sugg,
    dumpMapping (mergeSuggestions existing cid sugg)⟩, ?_, rfl, rfl, rfl, ?_, ?_⟩
  · unfold writeMergeBlock
    rw [if_neg (by simp [hie])]
    simp only [hload]
  · intro c hc
    unfold mergeSuggestions
    rw [dictGet_dictSet]
    have hcf : (c == cid) = false := by
      rw [beq_eq_false_iff_ne]
      exact hc
    simp [hcf]
  · refine ⟨(sugg.foldl (fun bc p => dictSet bc p.1 p.2)
      ((dictGet existing cid).getD [])), ?_, ?_⟩
    · unfold mergeSuggestions
      rw [dictGet_dictSet]
      simp
    · intro q
      rw [dictGet_foldl_dictSet_pairs]
      cases hfind : List.find? (fun p => p.1 == q) sugg.reverse <;> rfl

/-- C8 counterexample: a pre-merge mapping file whose content is the compact
`\x7b\x7d` followed by a newline. The backup the block writes is the
canonical re-serialization `json.dump(json.load(f), indent=2)` — the bare
two characters — which is not byte-identical to the pre-merge file content,
refuting "a backup file whose content equals the pre-merge mapping file
content exactly". -/
theorem backup_merge_cex :
    ∃ m nc, writeMergeBlock (some "\x7b\x7d\n") "249800"
        [("1938135", "ER Diagram (7176714)")] = .ok (some ⟨some "\x7b\x7d", m, nc⟩) ∧
      ("\x7b\x7d" : String) ≠ "\x7b\x7d\n" := by
  exact ⟨_, _, rfl, by decide⟩

/-- Witness for `backup_merge_spec` at a canonical-form pre-merge file. -/
theorem backup_merge_spec_witness :
    ∃ r, writeMergeBlock (some "\x7b\x7d") "1" [("2", "c")] = .ok (some r) ∧
      r.backupContent = some (dumpMapping []) := by
  obtain ⟨r, heq, hb, -⟩ := backup_merge_spec "\x7b\x7d" [] "1" [("2", "c")]
    (by decide) rfl
  exact ⟨r, heq, hb⟩
